import Mathlib

/-!
# Job scheduling engine of the metrics-server Prometheus exporter

A model of `main.go`: the job producer `createJobs`, the worker loop
`startWorker`, the pool starter `startJobProcessor`, and the collectors that
`main` hands to the metrics registry.

The three kinds of goroutine are described by the operations they perform, in
program order. A global state records the package-level variables, the
buffered job channel and the goroutines' program points; a scheduler step
executes one operation of one goroutine.
-/

namespace MetricsExporter

/-! ## Data model -/

/-- Go `time.Duration`: a number of nanoseconds. -/
abbrev Duration := Int

/-- Go `time.Second`. -/
def Second : Duration := 1000000000

/-- The value of `time.ParseDuration("30s")`. -/
def parseDuration30s : Duration := 30 * Second

/-- Go `type Job struct { Type string; Sleep time.Duration }`; the field
`Type` is spelled `type` here, `Type` being reserved. -/
structure Job where
  type : String
  Sleep : Duration
deriving DecidableEq, Repr

/-- Package variable `types`. -/
def types : List String := ["pods", "nodes"]

/-- The package variables that `initFlags` binds to command-line flags. -/
structure Flags where
  workers : Int
  interval : Duration
deriving DecidableEq, Repr

/-- Values of `workers` and `interval` when no flag is given. -/
def defaultFlags : Flags := { workers := 2, interval := parseDuration30s }

/-- Width of the Go type `int` on 64-bit targets. -/
def intBits : Nat := 64

/-- Largest value of the Go type `int`. -/
def maxInt : Int := 2 ^ (intBits - 1) - 1

/-- Smallest value of the Go type `int`. -/
def minInt : Int := -(2 ^ (intBits - 1))

/-- Result of an `int` operation whose mathematical value is `x`: Go wraps
around on overflow. -/
def wrapInt (x : Int) : Int :=
  (x + 2 ^ (intBits - 1)) % 2 ^ intBits - 2 ^ (intBits - 1)

/-- The value of a number `x` as a Go `int32`: the counter of a
`sync.WaitGroup` is the `int32` in the upper half of its 64-bit state, and
`wait.Add(delta)` adds `uint64(delta) << 32` to that state. -/
def wrapInt32 (x : Int) : Int :=
  (x + 2 ^ 31) % 2 ^ 32 - 2 ^ 31

/-- The largest integer up to which every integer is a `float64`. -/
def float64Exact : Int := 2 ^ 53

/-- The `float64` sum `v + 1` for an integer `v` with
`-2^53 <= v <= 2^53`, which is how `Inc` of a `client_golang` gauge changes
its value: the sum is exact below `2^53`, and at `2^53` it rounds back to
`2^53` (round to nearest, ties to even). A gauge that starts at 0 and is only
incremented takes no other values. -/
def float64Inc (v : Int) : Int :=
  if v < float64Exact then v + 1 else v

/-- The value of a gauge that held `v` after `m` calls of `Inc`: it grows by
1 per call until it reaches `2^53` and stays there. -/
def float64IncN (m : Nat) (v : Int) : Int :=
  max v (min (v + (m : Int)) float64Exact)

/-- Capacity of `jobsChannel`, from `make(chan *Job, 100)` in `main`. -/
def channelCapacity : Nat := 100

/-- Function `makeJob`. -/
def makeJob (jobType : String) : Job :=
  { type := jobType, Sleep := parseDuration30s }

/-! ## Operations of the goroutines -/

/-- The effectful statements of `createJobs`. -/
inductive ProducerOp where
  /-- Statement `inflightCounterVec.WithLabelValues(label).Inc()`. -/
  | gaugeInc (label : String)
  /-- Statement `jobs <- job`. -/
  | send (job : Job)
  /-- Statement `time.Sleep(d)`. -/
  | sleep (d : Duration)
deriving DecidableEq, Repr

/-- The inner loop of `createJobs`, entered with loop variable `i`; `fuel`
bounds the number of iterations. -/
def createJobsFrom (types : List String) (i : Nat) : Nat → List ProducerOp
  | 0 => []
  | fuel + 1 =>
    if h : i < types.length then
      let job := makeJob types[i]
      (if i % 2 = 0 then [ProducerOp.gaugeInc job.type] else [])
        ++ ProducerOp.send job :: createJobsFrom types (i + 1) fuel
    else []

/-- The inner loop of `createJobs`, from `i := 0` to its exit. -/
def createJobsLoop (types : List String) : List ProducerOp :=
  createJobsFrom types 0 types.length

/-- One pass of the outer `for` of `createJobs`: the inner loop, then
`time.Sleep(generationTime)` with `generationTime` parsed from `"30s"`. -/
def createJobsPass (types : List String) : List ProducerOp :=
  createJobsLoop types ++ [ProducerOp.sleep parseDuration30s]

/-- The effectful statements of the `case job := <-jobs` branch of
`startWorker`. -/
inductive WorkerOp where
  /-- Call `exporter.RecordNodeMetrics()`. -/
  | recordNodeMetrics
  /-- Call `exporter.RecordPodMetrics()`. -/
  | recordPodMetrics
  /-- The "Processed job" log line, which prints `iterations`. -/
  | logProcessed (workerID : Int) (jobType : String)
  /-- Statement `iterations++`, before its load of `iterations`. -/
  | incIterations
  /-- What is left of `iterations++` after its load: the store of
  `loaded + 1`. This appears at run time only, never in the program text. -/
  | storeIterations (loaded : Int)
  /-- The "Sleeping workers" log line. -/
  | logSleeping (d : Duration)
  /-- Statement `time.Sleep(d)`. -/
  | sleep (d : Duration)
deriving DecidableEq, Repr

/-- The body of the `case job := <-jobs` branch of `startWorker`, for the
received `job`. -/
def startWorkerBody (workerID : Int) (job : Job) : List WorkerOp :=
  (if job.type = "nodes" then
      [WorkerOp.recordNodeMetrics, WorkerOp.logProcessed workerID job.type]
    else if job.type = "pods" then
      [WorkerOp.recordPodMetrics, WorkerOp.logProcessed workerID job.type,
        WorkerOp.incIterations]
    else [])
    ++ [WorkerOp.logSleeping job.Sleep, WorkerOp.sleep job.Sleep]

/-- What the process does that is visible from outside the three functions:
calls into the `exporter` package, log lines and sleeps. -/
inductive Event where
  | recordNodeMetrics
  | recordPodMetrics
  | logProcessed (scrapeCount workerID : Int) (jobType : String)
  | logSleeping (d : Duration)
  | workerSleep (d : Duration)
  | producerSleep (d : Duration)
  | logStarting (n : Int)
deriving DecidableEq, Repr

/-- Program point of the goroutine running `startJobProcessor`. -/
inductive ProcessorPC where
  /-- Before `wait.Add(workers)`. -/
  | entry
  /-- At the loop test `i < workers`. -/
  | spawning (i : Int)
  /-- Inside `wait.Wait()`. -/
  | waiting
  /-- After `wait.Wait()`. -/
  | returned
deriving DecidableEq, Repr

/-- A goroutine started by `startJobProcessor`: `startWorker(workerID, jobs)`.
With `pc = []` it waits in the `select` for a job; otherwise `pc` holds the
operations left in the branch it is executing. -/
structure Worker where
  workerID : Int
  pc : List WorkerOp
deriving DecidableEq, Repr

/-- Global state of the process. -/
structure Sys where
  /-- Package variables `workers`, `interval` after `flag.Parse` -/
  flags : Flags
  /-- Package variable `types` -/
  types : List String
  /-- Value of each child of `inflightCounterVec`, by label: a `float64` that
  holds an integer between 0 and `2^53`; a child that was never touched counts
  as 0 -/
  gauge : String → Int
  /-- Package variable `iterations` -/
  iterations : Int
  /-- Buffer of `jobsChannel`, oldest job first -/
  queue : List Job
  /-- History: every job whose send completed, in order -/
  sent : List Job
  /-- History: every completed receive, in order, with the receiving worker -/
  received : List (Int × Job)
  /-- History: calls into `exporter`, log lines and sleeps -/
  trace : List Event
  /-- History: number of passes of `createJobs` completed -/
  cycles : Nat
  /-- Operations left in the current pass of `createJobs` -/
  producer : List ProducerOp
  /-- Program point of `startJobProcessor` -/
  processor : ProcessorPC
  /-- Counter of the `sync.WaitGroup` of `startJobProcessor`, an `int32` -/
  wg : Int
  /-- The worker goroutines, in the order they were started -/
  workers : List Worker
  /-- A goroutine panicked, which ends the process -/
  crashed : Bool

/-- State when `main` has started `startJobProcessor` and `createJobs`. -/
def Sys.init (flags : Flags) (types : List String) : Sys :=
  { flags := flags, types := types, gauge := fun _ => 0, iterations := 0,
    queue := [], sent := [], received := [], trace := [], cycles := 0,
    producer := createJobsPass types, processor := ProcessorPC.entry,
    wg := 0, workers := [], crashed := false }

/-- Effect of one statement of `createJobs`; `none` when the statement cannot
complete in this state (a send on the full channel). `Inc` adds 1 to the
child of the given label in `float64` arithmetic. A send puts the job behind
the buffered ones; the sleep ends the pass. -/
def ProducerOp.exec (s : Sys) : ProducerOp → Option Sys
  | ProducerOp.gaugeInc label =>
    some { s with gauge := Function.update s.gauge label (float64Inc (s.gauge label)) }
  | ProducerOp.send job =>
    if s.queue.length < channelCapacity then
      some { s with queue := s.queue ++ [job], sent := s.sent ++ [job] }
    else none
  | ProducerOp.sleep d =>
    some { s with trace := s.trace ++ [Event.producerSleep d], cycles := s.cycles + 1 }

/-- Effect of one step of a statement of the worker branch on the shared
state. The calls into `exporter` cannot reach `iterations` or
`inflightCounterVec`, which are unexported variables of package `main`; they
are recorded in the trace. `iterations++` is an unsynchronised load, add and
store on a package variable of type `int`: its first step is the load, which
changes nothing, and its second step stores the loaded value plus 1. -/
def WorkerOp.exec (s : Sys) : WorkerOp → Sys
  | WorkerOp.recordNodeMetrics => { s with trace := s.trace ++ [Event.recordNodeMetrics] }
  | WorkerOp.recordPodMetrics => { s with trace := s.trace ++ [Event.recordPodMetrics] }
  | WorkerOp.logProcessed workerID jobType =>
    { s with trace := s.trace ++ [Event.logProcessed s.iterations workerID jobType] }
  | WorkerOp.incIterations => s
  | WorkerOp.storeIterations loaded => { s with iterations := wrapInt (loaded + 1) }
  | WorkerOp.logSleeping d => { s with trace := s.trace ++ [Event.logSleeping d] }
  | WorkerOp.sleep d => { s with trace := s.trace ++ [Event.workerSleep d] }

/-- What is left of a statement of the worker branch after one step of it:
after the load of `iterations++`, the store of the value loaded. -/
def WorkerOp.residual (s : Sys) : WorkerOp → List WorkerOp
  | WorkerOp.incIterations => [WorkerOp.storeIterations s.iterations]
  | _ => []

/-- Effect of a statement of the worker branch that runs without another
goroutine in between: its first step, then what is left of it. -/
def WorkerOp.run (s : Sys) (op : WorkerOp) : Sys :=
  (op.residual s).foldl WorkerOp.exec (op.exec s)

/-- Number of scheduler steps that a statement of the worker branch takes. -/
def WorkerOp.steps : WorkerOp → Nat
  | WorkerOp.incIterations => 2
  | _ => 1

/-- Number of scheduler steps that a sequence of statements takes. -/
def branchSteps (ops : List WorkerOp) : Nat :=
  (ops.map WorkerOp.steps).sum

/-- The goroutines that the scheduler can run for one step. -/
inductive Goroutine where
  /-- The goroutine of `go createJobs(jobsChannel)`. -/
  | producer
  /-- The goroutine of `go startJobProcessor(jobsChannel)`. -/
  | processor
  /-- The `k`-th goroutine started by `startJobProcessor`. -/
  | worker (k : Nat)
deriving DecidableEq, Repr

/-- One step of `createJobs`: its next statement; after the last statement of
a pass the outer `for` starts the next pass. -/
def Sys.createJobsStep (s : Sys) : Option Sys :=
  match s.producer with
  | [] => some { s with producer := createJobsPass s.types }
  | op :: rest =>
    (op.exec s).map fun s1 =>
      { s1 with producer := if rest = [] then createJobsPass s.types else rest }

/-- One step of `startJobProcessor`. `wait.Add` adds to the `int32` counter
and panics when the result is negative; `wait.Wait` completes only at counter
zero. -/
def Sys.startJobProcessorStep (s : Sys) : Option Sys :=
  match s.processor with
  | ProcessorPC.entry =>
    let s1 : Sys := { s with trace := s.trace ++ [Event.logStarting s.flags.workers] }
    if wrapInt32 (s1.wg + s1.flags.workers) < 0 then some { s1 with crashed := true }
    else some { s1 with wg := wrapInt32 (s1.wg + s1.flags.workers),
                        processor := ProcessorPC.spawning 0 }
  | ProcessorPC.spawning i =>
    if i < s.flags.workers then
      some { s with workers := s.workers ++ [{ workerID := i, pc := [] }],
                    processor := ProcessorPC.spawning (i + 1) }
    else some { s with processor := ProcessorPC.waiting }
  | ProcessorPC.waiting =>
    if s.wg = 0 then some { s with processor := ProcessorPC.returned } else none
  | ProcessorPC.returned => none

/-- One step of the `k`-th worker: in the `select` it receives the oldest job
of the channel, if there is one; inside the branch it executes one step of
the next statement. `startWorker` has no exit, so `wait.Done()` is never
reached. -/
def Sys.startWorkerStep (s : Sys) (k : Nat) : Option Sys :=
  match s.workers[k]? with
  | none => none
  | some w =>
    match w.pc with
    | [] =>
      match s.queue with
      | [] => none
      | job :: rest =>
        some { s with queue := rest, received := s.received ++ [(w.workerID, job)],
                      workers := s.workers.set k { w with pc := startWorkerBody w.workerID job } }
    | op :: rest =>
      let s1 : Sys := op.exec s
      some { s1 with workers := s1.workers.set k { w with pc := op.residual s ++ rest } }

/-- One scheduler step: goroutine `g` runs for one step; `none` when it is
blocked, has finished, does not exist, or the process has ended. -/
def Sys.step (s : Sys) (g : Goroutine) : Option Sys :=
  if s.crashed then none
  else
    match g with
    | Goroutine.producer => s.createJobsStep
    | Goroutine.processor => s.startJobProcessorStep
    | Goroutine.worker k => s.startWorkerStep k

/-- The state after goroutine `g` is scheduled: a goroutine that cannot move
leaves the state as it is. -/
def Sys.next (s : Sys) (g : Goroutine) : Sys :=
  (s.step g).getD s

/-- The state after the schedule `gs`, run from `s`. -/
def Sys.run (s : Sys) (gs : List Goroutine) : Sys :=
  gs.foldl Sys.next s

/-- One loop iteration of `startWorker` by worker `workerID` on `job`, run
without interruption from the receive to the end of the sleep. -/
def startWorkerIteration (workerID : Int) (job : Job) (s : Sys) : Sys :=
  (startWorkerBody workerID job).foldl WorkerOp.run s

/-- A run of `startWorker` by a single worker that receives `jobs` in order. -/
def startWorkerOn (workerID : Int) (jobs : List Job) (s : Sys) : Sys :=
  jobs.foldl (fun s1 job => startWorkerIteration workerID job s1) s

/-- The jobs that a sequence of producer statements sends, in order. -/
def sendsOf : List ProducerOp → List Job
  | [] => []
  | ProducerOp.send job :: ops => job :: sendsOf ops
  | _ :: ops => sendsOf ops

/-- The gauge labels that a sequence of producer statements increments, in
order. -/
def incsOf : List ProducerOp → List String
  | [] => []
  | ProducerOp.gaugeInc label :: ops => label :: incsOf ops
  | _ :: ops => incsOf ops

/-- The sleeps that a sequence of producer statements performs, in order. -/
def sleepsOf : List ProducerOp → List Duration
  | [] => []
  | ProducerOp.sleep d :: ops => d :: sleepsOf ops
  | _ :: ops => sleepsOf ops

/-- The statements of the inner loop of `createJobs` over the registry
entries `ts`, the first of which has index `i`. -/
def loopOver : List String → Nat → List ProducerOp
  | [], _ => []
  | t :: ts, i =>
    (if i % 2 = 0 then [ProducerOp.gaugeInc t] else [])
      ++ ProducerOp.send (makeJob t) :: loopOver ts (i + 1)

/-- The entries of `ts` at even index, when the first entry has index `i`. -/
def evenEntries : List String → Nat → List String
  | [], _ => []
  | t :: ts, i => (if i % 2 = 0 then [t] else []) ++ evenEntries ts (i + 1)


/-- The metric collectors that `main.go` refers to: the four gauges of the
`exporter` package and the gauge vector `inflightCounterVec` of `main`. -/
inductive Collector where
  | PodMetricCPU
  | PodMetricMemory
  | NodeMetricCPU
  | NodeMetricMemory
  | inflightCounterVec
deriving DecidableEq, Repr

/-- The arguments of the call `prometheus.MustRegister(...)` in `main`, the
only registration in the file. -/
def mustRegisterArgs : List Collector :=
  [Collector.PodMetricCPU, Collector.PodMetricMemory, Collector.NodeMetricCPU,
    Collector.NodeMetricMemory]

/-- The collectors of this program whose values the handler of `/metrics`,
`promhttp.Handler()`, serves: those registered with the default registry. -/
def metricsEndpointCollectors : List Collector :=
  mustRegisterArgs

/-! ## Invariants of the scheduler -/

/-- Channel invariant: the jobs sent are the jobs received followed by the
jobs still buffered, and the buffer is within its capacity. -/
def QueueInv (t : Sys) : Prop :=
  t.sent = t.received.map Prod.snd ++ t.queue ∧ t.queue.length ≤ channelCapacity

/-- Producer invariant, relative to a state at the start of a pass in which
`base` had been sent, the gauge was `g0` and `c0` passes were completed: the
producer is inside a pass whose executed statements are `done`, after `n`
further complete passes. -/
def ProducerInv (tys : List String) (base : List Job) (g0 : String → Int) (c0 : Nat)
    (t : Sys) : Prop :=
  t.types = tys ∧ ∃ (done : List ProducerOp) (n : Nat),
    done ++ t.producer = createJobsPass tys ∧ t.producer ≠ [] ∧ t.cycles = c0 + n ∧
    t.sent = base ++ (List.replicate n (tys.map makeJob)).flatten ++ sendsOf done ∧
    ∀ l, t.gauge l
      = float64IncN (n * (evenEntries tys 0).count l + (incsOf done).count l) (g0 l)

/-- State of the producer running alone with the built-in registry, at the
start of a pass after `K` passes: `2 * K` jobs sent, all still buffered. -/
def AloneAt (K : Nat) (t : Sys) : Prop :=
  t.crashed = false ∧ t.types = types ∧ t.producer = createJobsPass types ∧
  t.queue.length = 2 * K ∧ t.sent.length = 2 * K ∧ t.cycles = K ∧ t.received = []

/-- State of the producer running alone with the built-in registry when it
has filled the channel: it stands at the send of the "pods" job of pass 51. -/
def AloneFull (t : Sys) : Prop :=
  t.crashed = false ∧
  t.producer = [ProducerOp.send (makeJob "pods"), ProducerOp.send (makeJob "nodes"),
      ProducerOp.sleep parseDuration30s] ∧
  t.queue.length = 100 ∧ t.sent.length = 100 ∧ t.cycles = 50 ∧ t.received = []

/-- The worker ids of the goroutines started so far, in starting order. -/
def Sys.workerIDs (t : Sys) : List Int :=
  t.workers.map Worker.workerID

/-- The ids `0, 1, ..., n - 1`. -/
def idsBelow (n : Nat) : List Int :=
  (List.range n).map (fun j : Nat => (j : Int))

/-- Invariant of `startJobProcessor`: the ids of the workers started so far
and the `WaitGroup` counter, by program point. -/
def ProcessorInv (t : Sys) : Prop :=
  match t.processor with
  | ProcessorPC.entry =>
    t.workerIDs = [] ∧ t.wg = 0 ∧ (t.crashed = true → wrapInt32 t.flags.workers < 0)
  | ProcessorPC.spawning i =>
    t.crashed = false ∧ 0 ≤ i ∧ (i ≤ t.flags.workers ∨ i = 0) ∧
      t.wg = wrapInt32 t.flags.workers ∧ 0 ≤ t.wg ∧ t.workerIDs = idsBelow i.toNat
  | ProcessorPC.waiting =>
    t.crashed = false ∧ t.wg = wrapInt32 t.flags.workers ∧ 0 ≤ t.wg ∧
      t.workerIDs = idsBelow t.flags.workers.toNat
  | ProcessorPC.returned =>
    t.crashed = false ∧ wrapInt32 t.flags.workers = 0 ∧ t.wg = 0 ∧
      t.workerIDs = idsBelow t.flags.workers.toNat

/-- Number of steps that `startJobProcessor` still takes before it waits in
`wait.Wait()`, when `n` workers are configured. -/
def stepsToWait (n : Int) : ProcessorPC → Nat
  | ProcessorPC.entry => n.toNat + 2
  | ProcessorPC.spawning i => (n - i).toNat + 1
  | ProcessorPC.waiting => 0
  | ProcessorPC.returned => 0

/-- A schedule under which one pass of `createJobs` completes and worker 0
then processes both of its jobs. -/
def drainedPass : List Goroutine :=
  List.replicate 4 Goroutine.producer ++ List.replicate 12 (Goroutine.worker 0)

/-- A schedule under which `startJobProcessor` starts its workers and then
`K` passes of `createJobs` complete, each drained by worker 0. -/
def drainedSchedule (K : Nat) : List Goroutine :=
  List.replicate 3 Goroutine.processor ++ (List.replicate K drainedPass).flatten

/-- State at the start of a pass, after `K` passes, with the built-in
registry, an empty channel and the single worker 0 waiting in its `select`. -/
def DrainedAt (K : Nat) (t : Sys) : Prop :=
  t.crashed = false ∧ t.types = types ∧ t.producer = createJobsPass types ∧
  t.queue = [] ∧ t.cycles = K ∧ t.workers = [{ workerID := 0, pc := [] }]

/-- A schedule with three workers: after the first pass of `createJobs`
worker 0 receives the "pods" job and worker 1 the "nodes" job; worker 0 is
still in `exporter.RecordPodMetrics` when the second pass is sent and worker 2
receives its "pods" job; then both load `iterations` before either stores
it. -/
def lostUpdateSchedule : List Goroutine :=
  List.replicate 4 Goroutine.processor ++ List.replicate 4 Goroutine.producer
    ++ [Goroutine.worker 0, Goroutine.worker 1, Goroutine.worker 0]
    ++ List.replicate 4 (Goroutine.worker 1) ++ List.replicate 4 Goroutine.producer
    ++ [Goroutine.worker 2, Goroutine.worker 2, Goroutine.worker 2, Goroutine.worker 0]
    ++ [Goroutine.worker 0, Goroutine.worker 2, Goroutine.worker 0, Goroutine.worker 2]
    ++ List.replicate 2 (Goroutine.worker 0) ++ List.replicate 2 (Goroutine.worker 2)

/-- The same receives as in `lostUpdateSchedule`, but worker 0 finishes its
branch before worker 2 begins its own. -/
def inTurnSchedule : List Goroutine :=
  List.replicate 4 Goroutine.processor ++ List.replicate 4 Goroutine.producer
    ++ [Goroutine.worker 0, Goroutine.worker 1] ++ List.replicate 6 (Goroutine.worker 0)
    ++ List.replicate 4 (Goroutine.worker 1) ++ List.replicate 4 Goroutine.producer
    ++ List.replicate 7 (Goroutine.worker 2)
/-! ## Arithmetic of the machine types -/

theorem wrapInt32_of_range (x : Int) (h1 : -2147483648 ≤ x) (h2 : x ≤ 2147483647) :
    wrapInt32 x = x := by
  unfold wrapInt32
  rw [Int.emod_eq_of_lt (by omega) (by omega)]
  omega

theorem float64Exact_eq : float64Exact = 9007199254740992 := by
  decide

theorem float64Inc_cases (v : Int) : float64Inc v = v ∨ float64Inc v = v + 1 := by
  unfold float64Inc
  by_cases h : v < float64Exact
  · right; simp [h]
  · left; simp [h]

theorem float64Inc_float64IncN (m : Nat) (v : Int) :
    float64Inc (float64IncN m v) = float64IncN (m + 1) v := by
  unfold float64Inc float64IncN
  rw [float64Exact_eq]
  push_cast
  split <;> omega

theorem float64IncN_zero (v : Int) : float64IncN 0 v = v := by
  unfold float64IncN
  rw [float64Exact_eq]
  simp only [Nat.cast_zero, add_zero]
  omega

theorem float64IncN_below (m : Nat) (v : Int) (h : v + (m : Int) ≤ float64Exact) :
    float64IncN m v = v + (m : Int) := by
  unfold float64IncN
  rw [float64Exact_eq] at *
  omega

theorem float64IncN_above (m : Nat) (v : Int) (h1 : v ≤ float64Exact)
    (h2 : float64Exact ≤ v + (m : Int)) : float64IncN m v = float64Exact := by
  unfold float64IncN
  rw [float64Exact_eq] at *
  omega

/-! ## Lemmas on the statements of `createJobs` -/

theorem sendsOf_append (a b : List ProducerOp) : sendsOf (a ++ b) = sendsOf a ++ sendsOf b := by
  induction a with
  | nil => rfl
  | cons op ops ih => cases op <;> simp [sendsOf, ih]

theorem incsOf_append (a b : List ProducerOp) : incsOf (a ++ b) = incsOf a ++ incsOf b := by
  induction a with
  | nil => rfl
  | cons op ops ih => cases op <;> simp [incsOf, ih]

theorem sleepsOf_append (a b : List ProducerOp) :
    sleepsOf (a ++ b) = sleepsOf a ++ sleepsOf b := by
  induction a with
  | nil => rfl
  | cons op ops ih => cases op <;> simp [sleepsOf, ih]

theorem createJobsFrom_eq_loopOver (types : List String) :
    ∀ (fuel i : Nat), types.length - i ≤ fuel →
      createJobsFrom types i fuel = loopOver (types.drop i) i := by
  intro fuel
  induction fuel with
  | zero =>
    intro i h
    have hi : types.length ≤ i := by omega
    simp [createJobsFrom, List.drop_eq_nil_of_le hi, loopOver]
  | succ n ih =>
    intro i h
    by_cases hi : i < types.length
    · rw [List.drop_eq_getElem_cons hi]
      simp only [createJobsFrom, hi, dite_true, loopOver, makeJob]
      rw [ih (i + 1) (by omega)]
    · have hle : types.length ≤ i := by omega
      simp [createJobsFrom, hi, List.drop_eq_nil_of_le hle, loopOver]

theorem createJobsLoop_eq_loopOver (types : List String) :
    createJobsLoop types = loopOver types 0 := by
  unfold createJobsLoop
  rw [createJobsFrom_eq_loopOver types types.length 0 (by omega)]
  simp

theorem sendsOf_loopOver (ts : List String) : ∀ i, sendsOf (loopOver ts i) = ts.map makeJob := by
  induction ts with
  | nil => intro i; rfl
  | cons t ts ih =>
    intro i
    by_cases h : i % 2 = 0 <;> simp [loopOver, h, sendsOf, ih]

theorem incsOf_loopOver (ts : List String) : ∀ i, incsOf (loopOver ts i) = evenEntries ts i := by
  induction ts with
  | nil => intro i; rfl
  | cons t ts ih =>
    intro i
    by_cases h : i % 2 = 0 <;> simp [loopOver, h, incsOf, evenEntries, ih]

theorem sleepsOf_loopOver (ts : List String) : ∀ i, sleepsOf (loopOver ts i) = [] := by
  induction ts with
  | nil => intro i; rfl
  | cons t ts ih =>
    intro i
    by_cases h : i % 2 = 0 <;> simp [loopOver, h, sleepsOf, ih]

/-! ## What a step of each goroutine leaves unchanged -/

theorem workerOp_exec_frame (s : Sys) (op : WorkerOp) :
    (op.exec s).flags = s.flags ∧ (op.exec s).types = s.types ∧
    (op.exec s).gauge = s.gauge ∧ (op.exec s).queue = s.queue ∧
    (op.exec s).sent = s.sent ∧ (op.exec s).received = s.received ∧
    (op.exec s).cycles = s.cycles ∧ (op.exec s).producer = s.producer ∧
    (op.exec s).processor = s.processor ∧ (op.exec s).wg = s.wg ∧
    (op.exec s).workers = s.workers ∧ (op.exec s).crashed = s.crashed := by
  cases op <;> simp [WorkerOp.exec]

theorem map_workerID_set (ws : List Worker) (k : Nat) (w : Worker) (pc : List WorkerOp)
    (h : ws[k]? = some w) :
    (ws.set k { w with pc := pc }).map Worker.workerID = ws.map Worker.workerID := by
  rw [List.map_set]
  apply List.ext_getElem?
  intro j
  rw [List.getElem?_set]
  by_cases hkj : k = j
  · subst hkj
    obtain ⟨hlt, hw⟩ := List.getElem?_eq_some_iff.mp h
    simp [hlt, hw]
  · simp [hkj]

theorem Sys.next_worker_frame (s : Sys) (k : Nat) :
    (s.next (Goroutine.worker k)).flags = s.flags ∧
    (s.next (Goroutine.worker k)).types = s.types ∧
    (s.next (Goroutine.worker k)).gauge = s.gauge ∧
    (s.next (Goroutine.worker k)).sent = s.sent ∧
    (s.next (Goroutine.worker k)).cycles = s.cycles ∧
    (s.next (Goroutine.worker k)).producer = s.producer ∧
    (s.next (Goroutine.worker k)).processor = s.processor ∧
    (s.next (Goroutine.worker k)).wg = s.wg ∧
    (s.next (Goroutine.worker k)).crashed = s.crashed ∧
    (s.next (Goroutine.worker k)).workers.map Worker.workerID
      = s.workers.map Worker.workerID := by
  unfold Sys.next Sys.step
  cases hc : s.crashed with
  | true => simp [hc]
  | false =>
    simp only [Bool.false_eq_true, if_false]
    unfold Sys.startWorkerStep
    cases hw : s.workers[k]? with
    | none => simp [hc]
    | some w =>
      obtain ⟨wid, pc⟩ := w
      cases pc with
      | nil =>
        cases hq : s.queue with
        | nil => simp [hc]
        | cons job rest => simp [hc, map_workerID_set s.workers k _ _ hw]
      | cons op rest =>
        obtain ⟨h1, h2, h3, _, h5, _, h7, h8, h9, h10, h11, h12⟩ := workerOp_exec_frame s op
        simp [h1, h2, h3, h5, h7, h8, h9, h10, h11, h12, hc,
          map_workerID_set s.workers k _ _ hw]

theorem Sys.next_processor_frame (s : Sys) :
    (s.next Goroutine.processor).flags = s.flags ∧
    (s.next Goroutine.processor).types = s.types ∧
    (s.next Goroutine.processor).gauge = s.gauge ∧
    (s.next Goroutine.processor).iterations = s.iterations ∧
    (s.next Goroutine.processor).queue = s.queue ∧
    (s.next Goroutine.processor).sent = s.sent ∧
    (s.next Goroutine.processor).received = s.received ∧
    (s.next Goroutine.processor).cycles = s.cycles ∧
    (s.next Goroutine.processor).producer = s.producer := by
  unfold Sys.next Sys.step
  cases hc : s.crashed with
  | true => simp [hc]
  | false =>
    simp only [Bool.false_eq_true, if_false]
    unfold Sys.startJobProcessorStep
    cases hp : s.processor with
    | entry => by_cases h : wrapInt32 (s.wg + s.flags.workers) < 0 <;> simp [h]
    | spawning i => by_cases h : i < s.flags.workers <;> simp [h]
    | waiting => by_cases h : s.wg = 0 <;> simp [h]
    | returned => simp

theorem producerOp_exec_frame (s t : Sys) (op : ProducerOp) (h : op.exec s = some t) :
    t.flags = s.flags ∧ t.types = s.types ∧ t.iterations = s.iterations ∧
    t.received = s.received ∧ t.producer = s.producer ∧
    t.processor = s.processor ∧ t.wg = s.wg ∧ t.workers = s.workers ∧
    t.crashed = s.crashed := by
  cases op with
  | gaugeInc label =>
    simp only [ProducerOp.exec, Option.some.injEq] at h
    subst h
    simp
  | send job =>
    simp only [ProducerOp.exec] at h
    split at h
    · simp only [Option.some.injEq] at h
      subst h
      simp
    · exact absurd h (by simp)
  | sleep d =>
    simp only [ProducerOp.exec, Option.some.injEq] at h
    subst h
    simp

theorem Sys.next_producer_frame (s : Sys) :
    (s.next Goroutine.producer).flags = s.flags ∧
    (s.next Goroutine.producer).types = s.types ∧
    (s.next Goroutine.producer).iterations = s.iterations ∧
    (s.next Goroutine.producer).received = s.received ∧
    (s.next Goroutine.producer).processor = s.processor ∧
    (s.next Goroutine.producer).wg = s.wg ∧
    (s.next Goroutine.producer).workers = s.workers ∧
    (s.next Goroutine.producer).crashed = s.crashed := by
  unfold Sys.next Sys.step
  cases hc : s.crashed with
  | true => simp [hc]
  | false =>
    simp only [Bool.false_eq_true, if_false]
    unfold Sys.createJobsStep
    cases hp : s.producer with
    | nil => simp [hc]
    | cons op rest =>
      cases he : op.exec s with
      | none => simp [hc, he]
      | some t =>
        obtain ⟨h1, h2, h3, h4, _, h6, h7, h8, h9⟩ := producerOp_exec_frame s t op he
        simp [h1, h2, h3, h4, h6, h7, h8, h9, hc, he]

/-- A property that every scheduler step preserves holds after every
schedule. -/
theorem Sys.run_induction (P : Sys → Prop) (hstep : ∀ t g, P t → P (t.next g))
    (s : Sys) (hs : P s) (gs : List Goroutine) : P (s.run gs) := by
  induction gs generalizing s with
  | nil => exact hs
  | cons g gs ih => exact ih (s.next g) (hstep s g hs)

/-! ## The channel -/

theorem queueInv_next (t : Sys) (g : Goroutine) (h : QueueInv t) : QueueInv (t.next g) := by
  obtain ⟨hs, hl⟩ := h
  unfold QueueInv Sys.next Sys.step
  cases hc : t.crashed with
  | true => simpa using ⟨hs, hl⟩
  | false =>
    simp only [Bool.false_eq_true, if_false]
    cases g with
    | producer =>
      simp only [Sys.createJobsStep]
      cases hp : t.producer with
      | nil => simpa using ⟨hs, hl⟩
      | cons op rest =>
        cases op with
        | gaugeInc label => simpa [ProducerOp.exec] using ⟨hs, hl⟩
        | send job =>
          by_cases hroom : t.queue.length < channelCapacity
          · simp only [ProducerOp.exec, hroom, if_true, Option.map_some', Option.getD_some,
              List.length_append, List.length_singleton]
            refine ⟨?_, by omega⟩
            rw [hs, List.append_assoc]
          · simpa [ProducerOp.exec, hroom] using ⟨hs, hl⟩
        | sleep d => simpa [ProducerOp.exec] using ⟨hs, hl⟩
    | processor =>
      simp only [Sys.startJobProcessorStep]
      cases hp : t.processor with
      | entry => by_cases h : wrapInt32 (t.wg + t.flags.workers) < 0 <;> simpa [h] using ⟨hs, hl⟩
      | spawning i => by_cases h : i < t.flags.workers <;> simpa [h] using ⟨hs, hl⟩
      | waiting => by_cases h : t.wg = 0 <;> simpa [h] using ⟨hs, hl⟩
      | returned => simpa using ⟨hs, hl⟩
    | worker k =>
      simp only [Sys.startWorkerStep]
      cases hw : t.workers[k]? with
      | none => simpa using ⟨hs, hl⟩
      | some w =>
        obtain ⟨wid, pc⟩ := w
        cases pc with
        | nil =>
          cases hq : t.queue with
          | nil => simp_all
          | cons job rest =>
            rw [hq] at hs hl
            simp only [Option.getD_some, List.map_append, List.map_cons, List.map_nil,
              List.append_assoc, List.singleton_append]
            refine ⟨hs, ?_⟩
            simp only [List.length_cons] at hl
            omega
        | cons op rest =>
          obtain ⟨_, _, _, h4, h5, h6, _⟩ := workerOp_exec_frame t op
          simpa [h4, h5, h6] using ⟨hs, hl⟩

theorem queueInv_init (flags : Flags) (types : List String) :
    QueueInv (Sys.init flags types) := by
  simp [QueueInv, Sys.init]

theorem queueInv_run (flags : Flags) (types : List String) (gs : List Goroutine) :
    QueueInv ((Sys.init flags types).run gs) :=
  Sys.run_induction QueueInv queueInv_next _ (queueInv_init flags types) gs

theorem Sys.run_append (s : Sys) (gs hs : List Goroutine) :
    s.run (gs ++ hs) = (s.run gs).run hs := by
  simp [Sys.run, List.foldl_append]

theorem createJobsPass_types :
    createJobsPass types
      = [ProducerOp.gaugeInc "pods", ProducerOp.send (makeJob "pods"),
          ProducerOp.send (makeJob "nodes"), ProducerOp.sleep parseDuration30s] := by
  decide

theorem aloneAt_init (flags : Flags) : AloneAt 0 (Sys.init flags types) := by
  simp [AloneAt, Sys.init]

theorem aloneAt_pass (K : Nat) (t : Sys) (h : AloneAt K t) (hK : K < 50) :
    AloneAt (K + 1) (t.run (List.replicate 4 Goroutine.producer)) := by
  obtain ⟨hc, hty, hp, hq, hs, hcy, hr⟩ := h
  have h1 : 2 * K < channelCapacity := by unfold channelCapacity; omega
  have h2 : 2 * K + 1 < channelCapacity := by unfold channelCapacity; omega
  rw [createJobsPass_types] at hp
  simp [AloneAt, Sys.run, Sys.next, Sys.step, Sys.createJobsStep, ProducerOp.exec, hc, hp, h1, h2,
    hty, createJobsPass_types, hq, hs, hcy, hr]
  omega

theorem aloneAt_run (flags : Flags) :
    ∀ K, K ≤ 50 → AloneAt K ((Sys.init flags types).run (List.replicate (4 * K) Goroutine.producer))
  | 0, _ => aloneAt_init flags
  | K + 1, hK => by
    have hsplit : List.replicate (4 * (K + 1)) Goroutine.producer
        = List.replicate (4 * K) Goroutine.producer ++ List.replicate 4 Goroutine.producer := by
      rw [← List.replicate_add, Nat.mul_succ]
    rw [hsplit, Sys.run_append]
    exact aloneAt_pass K _ (aloneAt_run flags K (by omega)) (by omega)

theorem aloneFull_of_aloneAt (t : Sys) (h : AloneAt 50 t) :
    AloneFull (t.run [Goroutine.producer]) := by
  obtain ⟨hc, hty, hp, hq, hs, hcy, hr⟩ := h
  rw [createJobsPass_types] at hp
  simp [AloneFull, Sys.run, Sys.next, Sys.step, Sys.createJobsStep, ProducerOp.exec, hc, hp, hq, hs, hcy, hr]

theorem aloneFull_blocked (t : Sys) (h : AloneFull t) :
    t.step Goroutine.producer = none ∧ t.next Goroutine.producer = t := by
  obtain ⟨hc, hp, hq, _⟩ := h
  have h1 : ¬ t.queue.length < channelCapacity := by rw [hq]; unfold channelCapacity; omega
  simp [Sys.next, Sys.step, Sys.createJobsStep, ProducerOp.exec, hc, hp, h1]

theorem aloneFull_run (t : Sys) (h : AloneFull t) :
    ∀ m, t.run (List.replicate m Goroutine.producer) = t
  | 0 => rfl
  | m + 1 => by
    have hstep : (t.run (List.replicate (m + 1) Goroutine.producer))
        = (t.next Goroutine.producer).run (List.replicate m Goroutine.producer) := rfl
    rw [hstep, (aloneFull_blocked t h).2]
    exact aloneFull_run t h m

theorem aloneFull_at_201 (flags : Flags) :
    AloneFull ((Sys.init flags types).run (List.replicate 201 Goroutine.producer)) := by
  have h := aloneFull_of_aloneAt _ (aloneAt_run flags 50 (le_refl _))
  have e : 4 * 50 + 1 = 201 := rfl
  rw [← Sys.run_append, ← List.replicate_succ', e] at h
  exact h

theorem run_alone_ge_201 (flags : Flags) (n : Nat) (hn : 201 ≤ n) :
    (Sys.init flags types).run (List.replicate n Goroutine.producer)
      = (Sys.init flags types).run (List.replicate 201 Goroutine.producer) := by
  obtain ⟨m, rfl⟩ := Nat.exists_eq_add_of_le hn
  rw [List.replicate_add, Sys.run_append]
  exact aloneFull_run _ (aloneFull_at_201 flags) _

/-- How a scheduler step changes the channel: not at all, by a completed send
of the producer, or by a receive of a worker waiting in its `select`. -/
theorem Sys.next_queue_cases (s : Sys) (g : Goroutine) :
    ((s.next g).queue = s.queue ∧ (s.next g).received = s.received ∧
        (s.next g).sent = s.sent) ∨
    (∃ job rest, g = Goroutine.producer ∧ s.producer = ProducerOp.send job :: rest ∧
        s.queue.length < channelCapacity ∧ (s.next g).queue = s.queue ++ [job] ∧
        (s.next g).sent = s.sent ++ [job] ∧ (s.next g).received = s.received) ∨
    (∃ k w job, g = Goroutine.worker k ∧ s.workers[k]? = some w ∧ w.pc = [] ∧
        s.queue = job :: (s.next g).queue ∧
        (s.next g).received = s.received ++ [(w.workerID, job)] ∧
        (s.next g).sent = s.sent) := by
  unfold Sys.next Sys.step
  cases hc : s.crashed with
  | true => left; simp
  | false =>
    simp only [Bool.false_eq_true, if_false]
    cases g with
    | producer =>
      simp only [Sys.createJobsStep]
      cases hp : s.producer with
      | nil => left; simp
      | cons op rest =>
        cases op with
        | gaugeInc label => left; simp [ProducerOp.exec]
        | send job =>
          by_cases hroom : s.queue.length < channelCapacity
          · right; left
            refine ⟨job, rest, ?_⟩
            simp [ProducerOp.exec, hroom]
          · left; simp [ProducerOp.exec, hroom]
        | sleep d => left; simp [ProducerOp.exec]
    | processor =>
      left
      simp only [Sys.startJobProcessorStep]
      cases hp : s.processor with
      | entry => by_cases h : wrapInt32 (s.wg + s.flags.workers) < 0 <;> simp [h]
      | spawning i => by_cases h : i < s.flags.workers <;> simp [h]
      | waiting => by_cases h : s.wg = 0 <;> simp [h]
      | returned => simp
    | worker k =>
      simp only [Sys.startWorkerStep]
      cases hw : s.workers[k]? with
      | none => left; simp
      | some w =>
        obtain ⟨wid, pc⟩ := w
        cases pc with
        | nil =>
          cases hq : s.queue with
          | nil => left; simp [hq]
          | cons job rest =>
            right; right
            refine ⟨k, ⟨wid, []⟩, job, ?_⟩
            simp [hw]
        | cons op rest =>
          left
          obtain ⟨_, _, _, h4, h5, h6, _⟩ := workerOp_exec_frame s op
          simp [h4, h5, h6]

theorem Sys.send_blocked (s : Sys) (job : Job) (rest : List ProducerOp)
    (hp : s.producer = ProducerOp.send job :: rest) (hfull : channelCapacity ≤ s.queue.length) :
    s.step Goroutine.producer = none ∧ s.next Goroutine.producer = s := by
  have h1 : ¬ s.queue.length < channelCapacity := by omega
  cases hc : s.crashed <;>
    simp [Sys.next, Sys.step, Sys.createJobsStep, ProducerOp.exec, hc, hp, h1]

theorem Sys.send_completes (s : Sys) (job : Job) (rest : List ProducerOp)
    (hc : s.crashed = false) (hp : s.producer = ProducerOp.send job :: rest)
    (hroom : s.queue.length < channelCapacity) :
    (s.step Goroutine.producer).isSome = true ∧
    (s.next Goroutine.producer).queue = s.queue ++ [job] ∧
    (s.next Goroutine.producer).sent = s.sent ++ [job] := by
  simp [Sys.next, Sys.step, Sys.createJobsStep, ProducerOp.exec, hc, hp, hroom]

/-- While the producer stands at a send on the full channel, every scheduler
step leaves it there. -/
theorem Sys.send_stays_blocked (s : Sys) (job : Job) (rest : List ProducerOp)
    (hp : s.producer = ProducerOp.send job :: rest) (hfull : channelCapacity ≤ s.queue.length)
    (g : Goroutine) : (s.next g).producer = ProducerOp.send job :: rest := by
  cases g with
  | producer => rw [(Sys.send_blocked s job rest hp hfull).2]; exact hp
  | processor => rw [(Sys.next_processor_frame s).2.2.2.2.2.2.2.2]; exact hp
  | worker k => rw [(Sys.next_worker_frame s k).2.2.2.2.2.1]; exact hp

/-- The histories of sends and receives only grow at the end. -/
theorem Sys.run_histories_grow (s : Sys) (gs : List Goroutine) :
    (∃ more, (s.run gs).sent = s.sent ++ more) ∧
    (∃ more, (s.run gs).received = s.received ++ more) := by
  refine Sys.run_induction
    (fun t => (∃ more, t.sent = s.sent ++ more) ∧ (∃ more, t.received = s.received ++ more))
    ?_ s ⟨⟨[], by simp⟩, ⟨[], by simp⟩⟩ gs
  intro t g ⟨⟨m1, h1⟩, ⟨m2, h2⟩⟩
  rcases Sys.next_queue_cases t g with ⟨_, hr, hs⟩ | ⟨job, _, _, _, _, _, hs, hr⟩ |
    ⟨_, w, job, _, _, _, _, hr, hs⟩
  · exact ⟨⟨m1, by rw [hs, h1]⟩, ⟨m2, by rw [hr, h2]⟩⟩
  · exact ⟨⟨m1 ++ [job], by rw [hs, h1, List.append_assoc]⟩, ⟨m2, by rw [hr, h2]⟩⟩
  · exact ⟨⟨m1, by rw [hs, h1]⟩,
      ⟨m2 ++ [(w.workerID, job)], by rw [hr, h2, List.append_assoc]⟩⟩

theorem drainedAt_pass (K : Nat) (t : Sys) (h : DrainedAt K t) :
    DrainedAt (K + 1) (t.run drainedPass) := by
  obtain ⟨hc, hty, hp, hq, hcy, hw⟩ := h
  rw [createJobsPass_types] at hp
  simp [DrainedAt, drainedPass, Sys.run, Sys.next, Sys.step, Sys.createJobsStep,
    Sys.startWorkerStep, ProducerOp.exec, WorkerOp.exec, WorkerOp.residual, startWorkerBody,
    makeJob, hc, hty, hp, hq, hcy, hw, channelCapacity, createJobsPass_types]

theorem drainedAt_start (interval : Duration) :
    DrainedAt 0 ((Sys.init { workers := 1, interval := interval } types).run
      (List.replicate 3 Goroutine.processor)) := by
  have h1 : wrapInt32 1 = 1 := by decide
  simp [DrainedAt, Sys.run, Sys.next, Sys.step, Sys.startJobProcessorStep, Sys.init, h1]

theorem drainedAt_run (interval : Duration) :
    ∀ K, DrainedAt K ((Sys.init { workers := 1, interval := interval } types).run
      (drainedSchedule K))
  | 0 => by
    have h := drainedAt_start interval
    simpa [drainedSchedule] using h
  | K + 1 => by
    have h := drainedAt_pass K _ (drainedAt_run interval K)
    rw [← Sys.run_append] at h
    have hsched : drainedSchedule K ++ drainedPass = drainedSchedule (K + 1) := by
      simp [drainedSchedule, List.replicate_succ', List.flatten_append]
    rw [hsched] at h
    exact h

/-- Along every schedule the channel is balanced: the jobs buffered at the
start followed by the jobs sent since are the jobs received since followed by
the jobs buffered at the end. -/
theorem Sys.run_queue_balance (s : Sys) (gs : List Goroutine) :
    ∃ newSent newReceived,
      (s.run gs).sent = s.sent ++ newSent ∧
      (s.run gs).received = s.received ++ newReceived ∧
      s.queue ++ newSent = newReceived.map Prod.snd ++ (s.run gs).queue := by
  refine Sys.run_induction
    (fun t => ∃ newSent newReceived,
      t.sent = s.sent ++ newSent ∧ t.received = s.received ++ newReceived ∧
      s.queue ++ newSent = newReceived.map Prod.snd ++ t.queue)
    ?_ s ⟨[], [], by simp, by simp, by simp⟩ gs
  intro t g ⟨ns, nr, h1, h2, h3⟩
  rcases Sys.next_queue_cases t g with ⟨hq, hr, hs⟩ | ⟨job, _, _, _, _, hq, hs, hr⟩ |
    ⟨_, w, job, _, _, _, hq, hr, hs⟩
  · exact ⟨ns, nr, by rw [hs, h1], by rw [hr, h2], by rw [hq, h3]⟩
  · refine ⟨ns ++ [job], nr, by rw [hs, h1, List.append_assoc], by rw [hr, h2], ?_⟩
    rw [hq, ← List.append_assoc, ← List.append_assoc, h3]
  · refine ⟨ns, nr ++ [(w.workerID, job)], by rw [hs, h1],
      by rw [hr, h2, List.append_assoc], ?_⟩
    rw [h3, hq]
    simp

/-! ## The producer -/

theorem sleepsOf_createJobsLoop (tys : List String) : sleepsOf (createJobsLoop tys) = [] := by
  rw [createJobsLoop_eq_loopOver, sleepsOf_loopOver]

theorem sendsOf_createJobsLoop (tys : List String) :
    sendsOf (createJobsLoop tys) = tys.map makeJob := by
  rw [createJobsLoop_eq_loopOver, sendsOf_loopOver]

theorem incsOf_createJobsLoop (tys : List String) :
    incsOf (createJobsLoop tys) = evenEntries tys 0 := by
  rw [createJobsLoop_eq_loopOver, incsOf_loopOver]

/-- Where the producer stands inside a pass: at the final sleep, or at a
statement of the inner loop. -/
theorem createJobsPass_split (tys : List String) (done rest : List ProducerOp) (op : ProducerOp)
    (h : done ++ op :: rest = createJobsPass tys) :
    (rest = [] ∧ op = ProducerOp.sleep parseDuration30s ∧ done = createJobsLoop tys) ∨
    (rest ≠ [] ∧ ∀ d, op ≠ ProducerOp.sleep d) := by
  unfold createJobsPass at h
  by_cases hr : rest = []
  · left
    subst hr
    have h2 : done ++ [op] = createJobsLoop tys ++ [ProducerOp.sleep parseDuration30s] := h
    obtain ⟨h3, h4⟩ := List.append_inj' h2 rfl
    refine ⟨rfl, ?_, h3⟩
    simpa using h4
  · right
    refine ⟨hr, ?_⟩
    intro d hd
    subst hd
    have hrest : rest.dropLast ++ [rest.getLast hr] = rest := List.dropLast_append_getLast hr
    have h2 : (done ++ ProducerOp.sleep d :: rest.dropLast) ++ [rest.getLast hr]
        = createJobsLoop tys ++ [ProducerOp.sleep parseDuration30s] := by
      rw [← h, List.append_assoc, List.cons_append, hrest]
    obtain ⟨h3, _⟩ := List.append_inj' h2 rfl
    have h5 := congrArg sleepsOf h3
    rw [sleepsOf_createJobsLoop, sleepsOf_append] at h5
    simp [sleepsOf] at h5

theorem flatten_replicate_succ (n : Nat) (x : List Job) :
    (List.replicate (n + 1) x).flatten = (List.replicate n x).flatten ++ x := by
  rw [List.replicate_succ', List.flatten_append]
  simp

theorem producerInv_next (tys : List String) (base : List Job) (g0 : String → Int) (c0 : Nat)
    (t : Sys) (g : Goroutine) (h : ProducerInv tys base g0 c0 t) :
    ProducerInv tys base g0 c0 (t.next g) := by
  obtain ⟨hty, done, n, hsplit, hne, hcyc, hsent, hgauge⟩ := h
  cases g with
  | processor =>
    obtain ⟨_, h2, h3, _, _, h6, _, h8, h9⟩ := Sys.next_processor_frame t
    refine ⟨h2.trans hty, done, n, ?_, ?_, ?_, ?_, ?_⟩
    · rw [h9]; exact hsplit
    · rw [h9]; exact hne
    · rw [h8]; exact hcyc
    · rw [h6]; exact hsent
    · rw [h3]; exact hgauge
  | worker k =>
    obtain ⟨_, h2, h3, h4, h5, h6, _⟩ := Sys.next_worker_frame t k
    refine ⟨h2.trans hty, done, n, ?_, ?_, ?_, ?_, ?_⟩
    · rw [h6]; exact hsplit
    · rw [h6]; exact hne
    · rw [h5]; exact hcyc
    · rw [h4]; exact hsent
    · rw [h3]; exact hgauge
  | producer =>
    have hkeep : ProducerInv tys base g0 c0 t :=
      ⟨hty, done, n, hsplit, hne, hcyc, hsent, hgauge⟩
    unfold Sys.next Sys.step
    cases hc : t.crashed with
    | true => simpa using hkeep
    | false =>
      simp only [Bool.false_eq_true, if_false, Sys.createJobsStep]
      cases hp : t.producer with
      | nil => exact absurd hp hne
      | cons op rest =>
        rw [hp] at hsplit
        rcases createJobsPass_split tys done rest op hsplit with ⟨hr, hop, hdone⟩ | ⟨hr, hop⟩
        · subst hr hop
          simp only [ProducerOp.exec, Option.map_some', Option.getD_some, if_true]
          refine ⟨hty, [], n + 1, ?_, ?_, ?_, ?_, ?_⟩
          · simp [hty]
          · simp [createJobsPass]
          · simp only [hcyc]; omega
          · simp only [hsent, hdone, sendsOf_createJobsLoop, flatten_replicate_succ, sendsOf,
              List.append_nil, List.append_assoc]
          · intro l
            simp only [hgauge l, hdone, incsOf_createJobsLoop, incsOf, List.count_nil]
            congr 1
            ring
        · cases op with
          | sleep d => exact absurd rfl (hop d)
          | gaugeInc label =>
            simp only [ProducerOp.exec, Option.map_some', Option.getD_some, hr, if_false]
            refine ⟨hty, done ++ [ProducerOp.gaugeInc label], n, ?_, hr, hcyc, ?_, ?_⟩
            · simpa using hsplit
            · simp only [hsent, sendsOf_append, sendsOf, List.append_nil]
            · intro l
              simp only [Function.update_apply, incsOf_append, incsOf, List.count_append]
              by_cases hl : l = label
              · subst hl
                simp only [if_true, hgauge l, List.count_singleton_self, float64Inc_float64IncN]
                congr 1
              · have hl2 : ¬ label = l := fun e => hl e.symm
                simp [hl, hgauge l, List.count_singleton, hl2]
          | send job =>
            by_cases hroom : t.queue.length < channelCapacity
            · simp only [ProducerOp.exec, hroom, if_true, Option.map_some', Option.getD_some,
                hr, if_false]
              refine ⟨hty, done ++ [ProducerOp.send job], n, ?_, hr, hcyc, ?_, ?_⟩
              · simpa using hsplit
              · simp only [hsent, sendsOf_append, sendsOf, List.append_assoc]
              · intro l
                simp only [hgauge l, incsOf_append, incsOf, List.append_nil]
            · simp only [ProducerOp.exec, hroom, if_false, Option.map_none', Option.getD_none]
              rw [← hp] at hsplit
              exact ⟨hty, done, n, hsplit, hne, hcyc, hsent, hgauge⟩

theorem producerInv_start (t : Sys) (h : t.producer = createJobsPass t.types) :
    ProducerInv t.types t.sent t.gauge t.cycles t := by
  refine ⟨rfl, [], 0, ?_, ?_, ?_, ?_, ?_⟩
  · simpa using h
  · rw [h]; simp [createJobsPass]
  · rfl
  · simp [sendsOf]
  · intro l; simp [incsOf, float64IncN_zero]

theorem producerInv_run (t : Sys) (h : t.producer = createJobsPass t.types)
    (gs : List Goroutine) : ProducerInv t.types t.sent t.gauge t.cycles (t.run gs) :=
  Sys.run_induction _ (fun u g hu => producerInv_next _ _ _ _ u g hu) t
    (producerInv_start t h) gs

theorem evenEntries_eq_enumFrom (ts : List String) :
    ∀ i, evenEntries ts i = ((ts.enumFrom i).filter (fun p => p.1 % 2 = 0)).map Prod.snd := by
  induction ts with
  | nil => intro i; rfl
  | cons t ts ih =>
    intro i
    by_cases h : i % 2 = 0 <;> simp [evenEntries, List.enumFrom, List.filter_cons, h, ih]

theorem mem_of_mem_evenEntries (x : String) (ts : List String) :
    ∀ i, x ∈ evenEntries ts i → x ∈ ts := by
  induction ts with
  | nil => intro i h; simp [evenEntries] at h
  | cons t ts ih =>
    intro i h
    simp only [evenEntries, List.mem_append] at h
    rcases h with h | h
    · by_cases hi : i % 2 = 0
      · simp only [hi, if_true, List.mem_singleton] at h
        simp [h]
      · simp [hi] at h
    · exact List.mem_cons_of_mem _ (ih (i + 1) h)

theorem count_evenEntries_nodup (ts : List String) (hnd : ts.Nodup) :
    ∀ (i k : Nat) (h : k < ts.length),
      (evenEntries ts i).count ts[k] = if (i + k) % 2 = 0 then 1 else 0 := by
  induction ts with
  | nil => intro i k h; simp at h
  | cons t ts ih =>
    intro i k h
    obtain ⟨hnot, hnd2⟩ := List.nodup_cons.mp hnd
    cases k with
    | zero =>
      have h0 : (evenEntries ts (i + 1)).count t = 0 :=
        List.count_eq_zero.mpr (fun hm => hnot (mem_of_mem_evenEntries t ts (i + 1) hm))
      by_cases hi : i % 2 = 0 <;> simp [evenEntries, List.count_append, h0, hi]
    | succ k =>
      have hk : k < ts.length := by simpa using h
      have hne : t ≠ ts[k] := fun e => hnot (e ▸ List.getElem_mem hk)
      have hrec := ih hnd2 (i + 1) k hk
      have harith : i + 1 + k = i + (k + 1) := by omega
      rw [harith] at hrec
      have hget : (t :: ts)[k + 1] = ts[k] := rfl
      rw [hget]
      by_cases hi : i % 2 = 0
      · simp only [evenEntries, hi, if_true, List.singleton_append]
        rw [List.count_cons_of_ne hne.symm, hrec]
      · simp only [evenEntries, hi, if_false, List.nil_append]
        rw [hrec]

/-- A step of the producer leaves every gauge value as it is or adds 1 to
it. -/
theorem Sys.next_producer_gauge (s : Sys) (l : String) :
    (s.next Goroutine.producer).gauge l = s.gauge l ∨
    (s.next Goroutine.producer).gauge l = s.gauge l + 1 := by
  unfold Sys.next Sys.step
  cases hc : s.crashed with
  | true => simp
  | false =>
    simp only [Bool.false_eq_true, if_false, Sys.createJobsStep]
    cases hp : s.producer with
    | nil => simp
    | cons op rest =>
      cases op with
      | gaugeInc label =>
        by_cases hl : l = label
        · subst hl
          rcases float64Inc_cases (s.gauge l) with h | h
          · left; simp [ProducerOp.exec, h]
          · right; simp [ProducerOp.exec, h]
        · left; simp [ProducerOp.exec, Function.update_apply, hl]
      | send job =>
        by_cases hroom : s.queue.length < channelCapacity <;> simp [ProducerOp.exec, hroom]
      | sleep d => simp [ProducerOp.exec]

theorem Sys.next_gauge_le (s : Sys) (g : Goroutine) (l : String) :
    s.gauge l ≤ (s.next g).gauge l := by
  cases g with
  | producer => rcases Sys.next_producer_gauge s l with h | h <;> omega
  | processor => rw [(Sys.next_processor_frame s).2.2.1]
  | worker k => rw [(Sys.next_worker_frame s k).2.2.1]

theorem Sys.run_gauge_le (s : Sys) (gs : List Goroutine) (l : String) :
    s.gauge l ≤ (s.run gs).gauge l :=
  Sys.run_induction (fun t => s.gauge l ≤ t.gauge l)
    (fun t g ht => le_trans ht (Sys.next_gauge_le t g l)) s (le_refl _) gs

/-- Entry `k` of `n` copies of `X` followed by the first `m` entries of `X`. -/
theorem getElem?_cycles (X : List Job) (m : Nat) :
    ∀ (n k : Nat), k < ((List.replicate n X).flatten ++ X.take m).length →
      ((List.replicate n X).flatten ++ X.take m)[k]? = X[k % X.length]? := by
  intro n
  induction n with
  | zero =>
    intro k hk
    simp only [List.replicate_zero, List.flatten_nil, List.nil_append, List.length_take] at hk ⊢
    have hk1 : k < m := by omega
    have hk2 : k < X.length := by omega
    rw [Nat.mod_eq_of_lt hk2, List.getElem?_take]
    simp [hk1]
  | succ n ih =>
    intro k hk
    have hrep : (List.replicate (n + 1) X).flatten = X ++ (List.replicate n X).flatten := by
      simp [List.replicate_succ]
    rw [hrep, List.append_assoc] at hk ⊢
    by_cases hlt : k < X.length
    · rw [List.getElem?_append_left hlt, Nat.mod_eq_of_lt hlt]
    · have hge : X.length ≤ k := by omega
      rw [List.getElem?_append_right hge]
      have hk2 : k - X.length < ((List.replicate n X).flatten ++ X.take m).length := by
        simp only [List.length_append] at hk ⊢
        omega
      rw [ih (k - X.length) hk2, Nat.mod_eq_sub_mod hge]

/-- Under every schedule from the initial state, the `k`-th job sent is the
job of registry entry `k mod len(types)`. -/
theorem sent_getElem? (flags : Flags) (tys : List String) (gs : List Goroutine) (k : Nat)
    (hk : k < ((Sys.init flags tys).run gs).sent.length) :
    ((Sys.init flags tys).run gs).sent[k]? = (tys.map makeJob)[k % tys.length]? := by
  obtain ⟨_, done, n, hsplit, _, _, hsent, _⟩ :=
    producerInv_run (Sys.init flags tys) rfl gs
  have htys : (Sys.init flags tys).types = tys := rfl
  rw [htys] at hsplit hsent
  have hsends := congrArg sendsOf hsplit
  rw [sendsOf_append] at hsends
  have hpass : sendsOf (createJobsPass tys) = tys.map makeJob := by
    simp [createJobsPass, sendsOf_append, sendsOf_createJobsLoop, sendsOf]
  have htake : sendsOf done = (tys.map makeJob).take (sendsOf done).length := by
    rw [← hpass, ← hsends, List.take_left']
    rfl
  have hsent2 : ((Sys.init flags tys).run gs).sent
      = (List.replicate n (tys.map makeJob)).flatten
        ++ (tys.map makeJob).take (sendsOf done).length := by
    have hinit : (Sys.init flags tys).sent = [] := rfl
    rw [hsent, hinit, ← htake]
    simp
  rw [hsent2] at hk ⊢
  rw [getElem?_cycles (tys.map makeJob) _ n k hk]
  simp

/-- From the initial state every gauge value stays between 0 and `2^53`, the
range on which `float64Inc` is the `float64` sum. -/
theorem gauge_range (flags : Flags) (tys : List String) (gs : List Goroutine) (l : String) :
    0 ≤ ((Sys.init flags tys).run gs).gauge l ∧
    ((Sys.init flags tys).run gs).gauge l ≤ float64Exact := by
  refine ⟨Sys.run_gauge_le (Sys.init flags tys) gs l, ?_⟩
  obtain ⟨_, done, n, _, _, _, _, hgauge⟩ := producerInv_run (Sys.init flags tys) rfl gs
  rw [hgauge l]
  have h0 : (Sys.init flags tys).gauge l = 0 := rfl
  rw [h0]
  unfold float64IncN
  rw [float64Exact_eq]
  omega

/-! ## The workers -/

theorem wrapInt_of_range (x : Int) (h1 : minInt ≤ x) (h2 : x ≤ maxInt) : wrapInt x = x := by
  unfold wrapInt
  unfold minInt at h1
  unfold maxInt at h2
  simp only [intBits] at *
  rw [Int.emod_eq_of_lt (by omega) (by omega)]
  omega

theorem startWorkerIteration_iterations (workerID : Int) (job : Job) (s : Sys) :
    (startWorkerIteration workerID job s).iterations
      = if job.type = "pods" then wrapInt (s.iterations + 1) else s.iterations := by
  unfold startWorkerIteration startWorkerBody
  by_cases hn : job.type = "nodes"
  · have hp : ¬ job.type = "pods" := by rw [hn]; decide
    simp [hn, WorkerOp.run, WorkerOp.residual, WorkerOp.exec]
  · by_cases hp : job.type = "pods"
    · simp [hp, WorkerOp.run, WorkerOp.residual, WorkerOp.exec]
    · simp [hn, hp, WorkerOp.run, WorkerOp.residual, WorkerOp.exec]

theorem startWorkerIteration_gauge (workerID : Int) (job : Job) (s : Sys) :
    (startWorkerIteration workerID job s).gauge = s.gauge := by
  unfold startWorkerIteration startWorkerBody
  by_cases hn : job.type = "nodes"
  · simp [hn, WorkerOp.run, WorkerOp.residual, WorkerOp.exec]
  · by_cases hp : job.type = "pods"
    · simp [hp, WorkerOp.run, WorkerOp.residual, WorkerOp.exec]
    · simp [hn, hp, WorkerOp.run, WorkerOp.residual, WorkerOp.exec]

theorem startWorkerOn_iterations (workerID : Int) (jobs : List Job) :
    ∀ s : Sys, 0 ≤ s.iterations →
      s.iterations + (jobs.countP (fun j => j.type = "pods") : Int) ≤ maxInt →
      (startWorkerOn workerID jobs s).iterations
        = s.iterations + (jobs.countP (fun j => j.type = "pods") : Int) := by
  induction jobs with
  | nil => intro s _ _; simp [startWorkerOn]
  | cons job jobs ih =>
    intro s h0 hmax
    have hstep := startWorkerIteration_iterations workerID job s
    have hmin : minInt ≤ 0 := by decide
    show (startWorkerOn workerID jobs (startWorkerIteration workerID job s)).iterations = _
    by_cases hp : job.type = "pods"
    · have hc : (job :: jobs).countP (fun j => j.type = "pods")
          = jobs.countP (fun j => j.type = "pods") + 1 := by
        simp [List.countP_cons, hp]
      rw [hc] at hmax ⊢
      push_cast at hmax ⊢
      have hw : wrapInt (s.iterations + 1) = s.iterations + 1 :=
        wrapInt_of_range _ (by omega) (by omega)
      rw [if_pos hp, hw] at hstep
      rw [ih _ (by omega) (by omega), hstep]
      ring
    · have hc : (job :: jobs).countP (fun j => j.type = "pods")
          = jobs.countP (fun j => j.type = "pods") := by
        simp [List.countP_cons, hp]
      rw [hc] at hmax ⊢
      rw [if_neg hp] at hstep
      rw [ih _ (by omega) (by omega), hstep]

theorem workerOp_run_congr (op : WorkerOp) (s u : Sys)
    (h : s.iterations = u.iterations ∧ s.trace = u.trace ∧ s.gauge = u.gauge) :
    (op.run s).iterations = (op.run u).iterations ∧ (op.run s).trace = (op.run u).trace ∧
    (op.run s).gauge = (op.run u).gauge := by
  obtain ⟨h1, h2, h3⟩ := h
  cases op <;> simp [WorkerOp.run, WorkerOp.residual, WorkerOp.exec, h1, h2, h3]

theorem workerOps_foldl_congr (ops : List WorkerOp) :
    ∀ s u : Sys, (s.iterations = u.iterations ∧ s.trace = u.trace ∧ s.gauge = u.gauge) →
      (ops.foldl WorkerOp.run s).iterations = (ops.foldl WorkerOp.run u).iterations ∧
      (ops.foldl WorkerOp.run s).trace = (ops.foldl WorkerOp.run u).trace ∧
      (ops.foldl WorkerOp.run s).gauge = (ops.foldl WorkerOp.run u).gauge := by
  induction ops with
  | nil => intro s u h; exact h
  | cons op ops ih => intro s u h; exact ih _ _ (workerOp_run_congr op s u h)

/-- A statement other than `iterations++` takes one step and leaves nothing
behind. -/
theorem workerOp_single_step (s : Sys) (op : WorkerOp) (h : op ≠ WorkerOp.incIterations) :
    op.residual s = [] ∧ op.steps = 1 ∧ op.run s = op.exec s := by
  cases op <;> simp [WorkerOp.residual, WorkerOp.steps, WorkerOp.run] at h ⊢

theorem run_replicate_succ (s : Sys) (g : Goroutine) (n : Nat) :
    s.run (List.replicate (n + 1) g) = (s.next g).run (List.replicate n g) :=
  rfl

/-- One step of a worker inside its branch. -/
theorem next_worker_branch (s : Sys) (k : Nat) (workerID : Int) (op : WorkerOp)
    (ops : List WorkerOp) (hc : s.crashed = false)
    (hw : s.workers[k]? = some { workerID := workerID, pc := op :: ops }) :
    s.next (Goroutine.worker k)
      = { op.exec s with
          workers := (op.exec s).workers.set k
            { workerID := workerID, pc := op.residual s ++ ops } } := by
  simp [Sys.next, Sys.step, Sys.startWorkerStep, hc, hw]

/-- A worker inside its branch, scheduled once per step of the statements
left, executes them in order and is back in its `select`. -/
theorem run_worker_branch (ops : List WorkerOp) :
    ∀ (s : Sys) (k : Nat) (workerID : Int), s.crashed = false →
      s.workers[k]? = some { workerID := workerID, pc := ops } →
      (s.run (List.replicate (branchSteps ops) (Goroutine.worker k))).iterations
          = (ops.foldl WorkerOp.run s).iterations ∧
      (s.run (List.replicate (branchSteps ops) (Goroutine.worker k))).trace
          = (ops.foldl WorkerOp.run s).trace ∧
      (s.run (List.replicate (branchSteps ops) (Goroutine.worker k))).gauge
          = (ops.foldl WorkerOp.run s).gauge ∧
      (s.run (List.replicate (branchSteps ops) (Goroutine.worker k))).queue = s.queue ∧
      (s.run (List.replicate (branchSteps ops) (Goroutine.worker k))).workers[k]?
          = some { workerID := workerID, pc := [] } := by
  induction ops with
  | nil => intro s k workerID _ hw; exact ⟨rfl, rfl, rfl, rfl, hw⟩
  | cons op ops ih =>
    intro s k workerID hc hw
    have hlt : k < s.workers.length := (List.getElem?_eq_some_iff.mp hw).1
    have hnext := next_worker_branch s k workerID op ops hc hw
    obtain ⟨_, _, _, f4, _, _, _, _, _, _, f11, f12⟩ := workerOp_exec_frame s op
    by_cases hop : op = WorkerOp.incIterations
    · subst hop
      have hsteps : branchSteps (WorkerOp.incIterations :: ops) = (branchSteps ops + 1) + 1 := by
        simp [branchSteps, WorkerOp.steps]
        omega
      rw [hsteps, run_replicate_succ, hnext, run_replicate_succ]
      simp only [WorkerOp.exec, WorkerOp.residual, List.singleton_append]
      have hw1 : ({ s with
          workers := s.workers.set k
            { workerID := workerID,
              pc := WorkerOp.storeIterations s.iterations :: ops } } : Sys).workers[k]?
          = some { workerID := workerID,
                   pc := WorkerOp.storeIterations s.iterations :: ops } := by
        simp [hlt]
      have hnext2 := next_worker_branch
        ({ s with
          workers := s.workers.set k
            { workerID := workerID,
              pc := WorkerOp.storeIterations s.iterations :: ops } } : Sys)
        k workerID (WorkerOp.storeIterations s.iterations) ops hc hw1
      rw [hnext2]
      simp only [WorkerOp.exec, WorkerOp.residual, List.nil_append, List.set_set]
      obtain ⟨h1, h2, h3, h4, h5⟩ := ih
        ({ s with
          iterations := wrapInt (s.iterations + 1),
          workers := s.workers.set k { workerID := workerID, pc := ops } } : Sys)
        k workerID hc (by simp [hlt])
      obtain ⟨g1, g2, g3⟩ := workerOps_foldl_congr ops
        ({ s with
          iterations := wrapInt (s.iterations + 1),
          workers := s.workers.set k { workerID := workerID, pc := ops } } : Sys)
        (WorkerOp.run s WorkerOp.incIterations)
        (by simp [WorkerOp.run, WorkerOp.residual, WorkerOp.exec])
      exact ⟨h1.trans g1, h2.trans g2, h3.trans g3, h4, h5⟩
    · obtain ⟨hres, hst, hrun⟩ := workerOp_single_step s op hop
      have hsteps : branchSteps (op :: ops) = branchSteps ops + 1 := by
        simp [branchSteps, hst]
        omega
      rw [hsteps, run_replicate_succ, hnext, hres, List.nil_append]
      have hc1 : ({ op.exec s with
          workers := (op.exec s).workers.set k { workerID := workerID, pc := ops } } : Sys).crashed
          = false := by
        show (op.exec s).crashed = false
        rw [f12]; exact hc
      have hw1 : ({ op.exec s with
          workers := (op.exec s).workers.set k
            { workerID := workerID, pc := ops } } : Sys).workers[k]?
          = some { workerID := workerID, pc := ops } := by
        show ((op.exec s).workers.set k { workerID := workerID, pc := ops })[k]? = _
        rw [f11]
        simp [hlt]
      obtain ⟨h1, h2, h3, h4, h5⟩ := ih _ k workerID hc1 hw1
      obtain ⟨g1, g2, g3⟩ := workerOps_foldl_congr ops
        ({ op.exec s with
          workers := (op.exec s).workers.set k { workerID := workerID, pc := ops } } : Sys)
        (op.run s) (by rw [hrun]; exact ⟨rfl, rfl, rfl⟩)
      refine ⟨h1.trans g1, h2.trans g2, h3.trans g3, ?_, h5⟩
      rw [h4]
      exact f4

/-- A worker waiting in its `select` with `job` at the front of the channel,
scheduled for the receive and once per step of its branch, has the effect of
`startWorkerIteration` and is back in its `select`. -/
theorem run_worker_iteration (s : Sys) (k : Nat) (workerID : Int) (job : Job) (rest : List Job)
    (hc : s.crashed = false) (hw : s.workers[k]? = some { workerID := workerID, pc := [] })
    (hq : s.queue = job :: rest) :
    (s.run (List.replicate (branchSteps (startWorkerBody workerID job) + 1)
        (Goroutine.worker k))).iterations = (startWorkerIteration workerID job s).iterations ∧
    (s.run (List.replicate (branchSteps (startWorkerBody workerID job) + 1)
        (Goroutine.worker k))).trace = (startWorkerIteration workerID job s).trace ∧
    (s.run (List.replicate (branchSteps (startWorkerBody workerID job) + 1)
        (Goroutine.worker k))).gauge = (startWorkerIteration workerID job s).gauge ∧
    (s.run (List.replicate (branchSteps (startWorkerBody workerID job) + 1)
        (Goroutine.worker k))).queue = rest ∧
    (s.run (List.replicate (branchSteps (startWorkerBody workerID job) + 1)
        (Goroutine.worker k))).workers[k]? = some { workerID := workerID, pc := [] } := by
  have hlt : k < s.workers.length := (List.getElem?_eq_some_iff.mp hw).1
  have hnext : s.next (Goroutine.worker k)
      = { s with
          queue := rest, received := s.received ++ [(workerID, job)],
          workers := s.workers.set k
            { workerID := workerID, pc := startWorkerBody workerID job } } := by
    simp [Sys.next, Sys.step, Sys.startWorkerStep, hc, hw, hq]
  rw [run_replicate_succ, hnext]
  obtain ⟨h1, h2, h3, h4, h5⟩ := run_worker_branch (startWorkerBody workerID job)
    ({ s with
        queue := rest, received := s.received ++ [(workerID, job)],
        workers := s.workers.set k
          { workerID := workerID, pc := startWorkerBody workerID job } } : Sys)
    k workerID hc (by simp [hlt])
  obtain ⟨g1, g2, g3⟩ := workerOps_foldl_congr (startWorkerBody workerID job)
    ({ s with
        queue := rest, received := s.received ++ [(workerID, job)],
        workers := s.workers.set k
          { workerID := workerID, pc := startWorkerBody workerID job } } : Sys)
    s ⟨rfl, rfl, rfl⟩
  exact ⟨h1.trans g1, h2.trans g2, h3.trans g3, h4, h5⟩

/-! ## The worker pool -/

theorem idsBelow_succ (n : Nat) : idsBelow (n + 1) = idsBelow n ++ [(n : Int)] := by
  simp [idsBelow, List.range_succ]

theorem processorInv_next (t : Sys) (g : Goroutine) (h : ProcessorInv t) :
    ProcessorInv (t.next g) := by
  cases g with
  | producer =>
    obtain ⟨h1, _, _, _, h5, h6, h7, h8⟩ := Sys.next_producer_frame t
    unfold ProcessorInv Sys.workerIDs at h ⊢
    rw [h5, h1, h6, h7, h8]
    exact h
  | worker k =>
    obtain ⟨h1, _, _, _, _, _, h7, h8, h9, h10⟩ := Sys.next_worker_frame t k
    unfold ProcessorInv Sys.workerIDs at h ⊢
    rw [h7, h1, h8, h9, h10]
    exact h
  | processor =>
    unfold Sys.next Sys.step
    cases hc : t.crashed with
    | true => simpa using h
    | false =>
      simp only [Bool.false_eq_true, if_false, Sys.startJobProcessorStep]
      unfold ProcessorInv at h
      cases hp : t.processor with
      | entry =>
        rw [hp] at h
        obtain ⟨hids, hwg, _⟩ := h
        have hsum : t.wg + t.flags.workers = t.flags.workers := by rw [hwg]; simp
        rw [hsum]
        by_cases hneg : wrapInt32 t.flags.workers < 0
        · simp only [hneg, if_true, Option.getD_some]
          unfold ProcessorInv
          simp only [hp]
          exact ⟨hids, hwg, fun _ => hneg⟩
        · simp only [hneg, if_false, Option.getD_some]
          unfold ProcessorInv
          simp only []
          refine ⟨hc, le_refl _, by simp, by simp, by omega, ?_⟩
          simpa [Sys.workerIDs, idsBelow] using hids
      | spawning i =>
        rw [hp] at h
        obtain ⟨_, h0, hle, hwg, hwg0, hids⟩ := h
        by_cases hlt : i < t.flags.workers
        · simp only [hlt, if_true, Option.getD_some]
          unfold ProcessorInv
          simp only []
          refine ⟨hc, by omega, Or.inl (by omega), hwg, hwg0, ?_⟩
          have hnat : (i + 1).toNat = i.toNat + 1 := by omega
          have hcast : ((i.toNat : Nat) : Int) = i := by omega
          rw [hnat, idsBelow_succ, hcast]
          simp only [Sys.workerIDs] at hids ⊢
          simp [hids]
        · simp only [hlt, if_false, Option.getD_some]
          unfold ProcessorInv
          simp only []
          have hi : i.toNat = t.flags.workers.toNat := by omega
          rw [hi] at hids
          exact ⟨hc, hwg, hwg0, hids⟩
      | waiting =>
        rw [hp] at h
        obtain ⟨_, hwg, hwg0, hids⟩ := h
        by_cases hz : t.wg = 0
        · simp only [hz, if_true, Option.getD_some]
          unfold ProcessorInv
          simp only []
          have hN : wrapInt32 t.flags.workers = 0 := by rw [← hwg]; exact hz
          exact ⟨hc, hN, trivial, hids⟩
        · simp only [hz, if_false, Option.getD_none]
          unfold ProcessorInv
          rw [hp]
          exact ⟨hc, hwg, hwg0, hids⟩
      | returned =>
        simp only [Option.getD_none]
        rw [hp] at h
        unfold ProcessorInv
        rw [hp]
        exact h

theorem processorInv_init (flags : Flags) (tys : List String) :
    ProcessorInv (Sys.init flags tys) := by
  simp [ProcessorInv, Sys.init, Sys.workerIDs]

theorem processorInv_run (flags : Flags) (tys : List String) (gs : List Goroutine) :
    ProcessorInv ((Sys.init flags tys).run gs) :=
  Sys.run_induction ProcessorInv processorInv_next _ (processorInv_init flags tys) gs

theorem flags_run (flags : Flags) (tys : List String) (gs : List Goroutine) :
    ((Sys.init flags tys).run gs).flags = flags := by
  refine Sys.run_induction (fun t => t.flags = flags) ?_ _ rfl gs
  intro t g ht
  cases g with
  | producer => rw [(Sys.next_producer_frame t).1]; exact ht
  | processor => rw [(Sys.next_processor_frame t).1]; exact ht
  | worker k => rw [(Sys.next_worker_frame t k).1]; exact ht

theorem flags_next (t : Sys) (g : Goroutine) : (t.next g).flags = t.flags := by
  cases g with
  | producer => exact (Sys.next_producer_frame t).1
  | processor => exact (Sys.next_processor_frame t).1
  | worker k => exact (Sys.next_worker_frame t k).1

/-- Each step of `startJobProcessor` brings it one step closer to
`wait.Wait()`; steps of the other goroutines do not move it. -/
theorem stepsToWait_next (t : Sys) (g : Goroutine) (hinv : ProcessorInv t)
    (h32 : 0 ≤ wrapInt32 t.flags.workers) :
    stepsToWait t.flags.workers (t.next g).processor
      = stepsToWait t.flags.workers t.processor - (if g = Goroutine.processor then 1 else 0) := by
  cases g with
  | producer =>
    rw [(Sys.next_producer_frame t).2.2.2.2.1]
    simp
  | worker k =>
    rw [(Sys.next_worker_frame t k).2.2.2.2.2.2.1]
    simp
  | processor =>
    simp only [if_true]
    unfold ProcessorInv at hinv
    unfold Sys.next Sys.step
    cases hp : t.processor with
    | entry =>
      rw [hp] at hinv
      obtain ⟨_, hwg, hcr⟩ := hinv
      have hc : t.crashed = false := by
        cases hc : t.crashed with
        | false => rfl
        | true => exact absurd (hcr hc) (by omega)
      have hsum : t.wg + t.flags.workers = t.flags.workers := by rw [hwg]; simp
      have hneg : ¬ wrapInt32 t.flags.workers < 0 := by omega
      simp [hc, Sys.startJobProcessorStep, hp, hsum, hneg, stepsToWait]
    | spawning i =>
      rw [hp] at hinv
      obtain ⟨hc, h0, hle, _, _⟩ := hinv
      by_cases hlt : i < t.flags.workers
      · simp only [hc, Bool.false_eq_true, if_false, Sys.startJobProcessorStep, hp, hlt, if_true,
          Option.getD_some, stepsToWait]
        omega
      · simp only [hc, Bool.false_eq_true, if_false, Sys.startJobProcessorStep, hp, hlt,
          Option.getD_some, stepsToWait]
        omega
    | waiting =>
      cases hc : t.crashed with
      | true => simp [hp, stepsToWait]
      | false => by_cases hz : t.wg = 0 <;> simp [Sys.startJobProcessorStep, hp, hz, stepsToWait]
    | returned =>
      cases hc : t.crashed <;> simp [Sys.startJobProcessorStep, hp, stepsToWait]

theorem stepsToWait_run (gs : List Goroutine) :
    ∀ t : Sys, ProcessorInv t → 0 ≤ wrapInt32 t.flags.workers →
      stepsToWait t.flags.workers (t.run gs).processor
        = stepsToWait t.flags.workers t.processor - gs.count Goroutine.processor := by
  induction gs with
  | nil => intro t _ _; simp [Sys.run]
  | cons g gs ih =>
    intro t hinv h32
    have hfl := flags_next t g
    have hrec := ih (t.next g) (processorInv_next t g hinv) (by rw [hfl]; exact h32)
    rw [hfl, stepsToWait_next t g hinv h32] at hrec
    show stepsToWait t.flags.workers ((t.next g).run gs).processor = _
    rw [hrec, List.count_cons]
    by_cases hg : g = Goroutine.processor
    · simp [hg]; omega
    · simp [hg]

/-! ## Properties of the program -/

theorem producer_at_boundary (tys : List String) (base : List Job) (g0 : String → Int)
    (c0 : Nat) (t : Sys) (h : ProducerInv tys base g0 c0 t)
    (hb : t.producer = createJobsPass tys) :
    ∃ n, t.cycles = c0 + n ∧
      t.sent = base ++ (List.replicate n (tys.map makeJob)).flatten ∧
      ∀ l, t.gauge l = float64IncN (n * (evenEntries tys 0).count l) (g0 l) := by
  obtain ⟨_, done, n, hsplit, _, hcyc, hsent, hgauge⟩ := h
  have hdone : done = [] := by
    rw [hb] at hsplit
    exact List.append_left_eq_self.mp hsplit
  subst hdone
  refine ⟨n, hcyc, ?_, ?_⟩
  · simpa [sendsOf] using hsent
  · intro l
    simpa [incsOf] using hgauge l

/-- C1: one pass of `createJobs` sends exactly one job per registry entry, in
registry order, the `i`-th being `Job{types[i], 30s}`; for the built-in
registry these are `Job{pods,30s}` then `Job{nodes,30s}`. A send that
completes puts its job at the back of the channel buffer. From every state at
the start of a pass, under every schedule that ends when that pass is
complete, the jobs sent are the registry mapped through `makeJob`, and they
went through the channel: the jobs buffered at the start followed by them are
the jobs received meanwhile followed by the jobs buffered at the end; when
nothing was received meanwhile, they are at the back of the buffer. -/
theorem createJobs_pass_sends_registry :
    (∀ tys : List String,
      sendsOf (createJobsPass tys) = tys.map makeJob ∧
      (sendsOf (createJobsPass tys)).length = tys.length ∧
      ∀ (i : Nat) (h : i < tys.length),
        (sendsOf (createJobsPass tys))[i]? = some { type := tys[i], Sleep := 30 * Second }) ∧
    sendsOf (createJobsPass types)
      = [{ type := "pods", Sleep := 30 * Second }, { type := "nodes", Sleep := 30 * Second }] ∧
    (∀ (s : Sys) (job : Job) (rest : List ProducerOp), s.crashed = false →
      s.producer = ProducerOp.send job :: rest → s.queue.length < channelCapacity →
      (s.next Goroutine.producer).queue = s.queue ++ [job] ∧
      (s.next Goroutine.producer).sent = s.sent ++ [job]) ∧
    (∀ (s : Sys) (gs : List Goroutine),
      s.producer = createJobsPass s.types →
      (s.run gs).producer = createJobsPass s.types →
      (s.run gs).cycles = s.cycles + 1 →
      (s.run gs).sent = s.sent ++ s.types.map makeJob ∧
      (∃ newReceived,
        (s.run gs).received = s.received ++ newReceived ∧
        s.queue ++ s.types.map makeJob = newReceived.map Prod.snd ++ (s.run gs).queue) ∧
      ((s.run gs).received = s.received →
        (s.run gs).queue = s.queue ++ s.types.map makeJob)) := by
  have hsends : ∀ tys : List String, sendsOf (createJobsPass tys) = tys.map makeJob := by
    intro tys
    simp [createJobsPass, sendsOf_append, sendsOf_createJobsLoop, sendsOf]
  refine ⟨?_, ?_, ?_, ?_⟩
  · intro tys
    refine ⟨hsends tys, ?_, ?_⟩
    · simp [hsends]
    · intro i h
      simp [hsends, h, makeJob, parseDuration30s]
  · rw [hsends]
    simp [types, makeJob, parseDuration30s]
  · intro s job rest hc hp hroom
    exact (Sys.send_completes s job rest hc hp hroom).2
  · intro s gs hstart hend hcyc
    obtain ⟨n, hn, hsent, _⟩ :=
      producer_at_boundary _ _ _ _ _ (producerInv_run s hstart gs) hend
    have h1 : n = 1 := by omega
    subst h1
    have hsent1 : (s.run gs).sent = s.sent ++ s.types.map makeJob := by simpa using hsent
    obtain ⟨newSent, newReceived, b1, b2, b3⟩ := Sys.run_queue_balance s gs
    have hnew : newSent = s.types.map makeJob := by
      rw [b1] at hsent1
      exact List.append_cancel_left hsent1
    rw [hnew] at b3
    refine ⟨hsent1, ⟨newReceived, b2, b3⟩, ?_⟩
    intro hrec
    have hnil : newReceived = [] := by
      rw [b2] at hrec
      exact List.append_right_eq_self.mp hrec
    rw [hnil] at b3
    simpa using b3.symm

/-- Instance of C1: the first pass from the initial state with the built-in
registry, run by the producer alone: both jobs are sent and are in the
channel buffer. -/
theorem createJobs_pass_sends_registry_witness :
    (((Sys.init defaultFlags types).run (List.replicate 4 Goroutine.producer)).sent
      = (Sys.init defaultFlags types).sent ++ (Sys.init defaultFlags types).types.map makeJob) ∧
    (((Sys.init defaultFlags types).run (List.replicate 4 Goroutine.producer)).queue
      = (Sys.init defaultFlags types).queue
        ++ (Sys.init defaultFlags types).types.map makeJob) ∧
    (((Sys.init defaultFlags types).run (List.replicate 2 Goroutine.producer)).queue
      = ((Sys.init defaultFlags types).run (List.replicate 1 Goroutine.producer)).queue
        ++ [makeJob "pods"]) :=
  ⟨(createJobs_pass_sends_registry.2.2.2 (Sys.init defaultFlags types)
      (List.replicate 4 Goroutine.producer) rfl (by decide) (by decide)).1,
    (createJobs_pass_sends_registry.2.2.2 (Sys.init defaultFlags types)
      (List.replicate 4 Goroutine.producer) rfl (by decide) (by decide)).2.2 (by decide),
    (createJobs_pass_sends_registry.2.2.1
      ((Sys.init defaultFlags types).run (List.replicate 1 Goroutine.producer))
      (makeJob "pods") [ProducerOp.send (makeJob "nodes"), ProducerOp.sleep parseDuration30s]
      (by decide) (by decide) (by decide)).1⟩

/-- C2: the sleep between two passes of `createJobs` is the constant parsed
from "30s", whatever the `interval` flag: with `-interval=10s` the producer
still sleeps 30 s. -/
theorem createJobs_sleep_ignores_interval :
    (∀ tys : List String, sleepsOf (createJobsPass tys) = [30 * Second]) ∧
    ((Sys.init { workers := 2, interval := 10 * Second } types).run
        (List.replicate 4 Goroutine.producer)).trace = [Event.producerSleep (30 * Second)] ∧
    ((Sys.init { workers := 2, interval := 10 * Second } types).run
        (List.replicate 4 Goroutine.producer)).flags.interval = 10 * Second ∧
    (30 * Second : Duration) ≠ 10 * Second := by
  refine ⟨?_, by decide, by decide, by decide⟩
  intro tys
  simp [createJobsPass, sleepsOf_append, sleepsOf_createJobsLoop, sleepsOf, parseDuration30s]

set_option maxRecDepth 100000 in
/-- C3: with `workers = 3` and the built-in registry, under a schedule in
which workers 0 and 2 each process a "pods" job and both load `iterations`
before either stores it, both jobs are dispatched, `iterations` was 0 at both
log lines, and all workers are back in their `select`, yet `iterations` ends
at 1: one increment is lost. When worker 0 finishes before worker 2 begins,
the same two jobs leave `iterations` at 2. -/
theorem startWorker_iterations_lost_update :
    ((Sys.init { workers := 3, interval := 30 * Second } types).run lostUpdateSchedule).received
      = [(0, makeJob "pods"), (1, makeJob "nodes"), (2, makeJob "pods")] ∧
    ((Sys.init { workers := 3, interval := 30 * Second } types).run lostUpdateSchedule).trace.count
      Event.recordPodMetrics = 2 ∧
    Event.logProcessed 0 0 "pods"
      ∈ ((Sys.init { workers := 3, interval := 30 * Second } types).run lostUpdateSchedule).trace ∧
    Event.logProcessed 0 2 "pods"
      ∈ ((Sys.init { workers := 3, interval := 30 * Second } types).run lostUpdateSchedule).trace ∧
    ((Sys.init { workers := 3, interval := 30 * Second } types).run lostUpdateSchedule).workers
      = [{ workerID := 0, pc := [] }, { workerID := 1, pc := [] },
         { workerID := 2, pc := [] }] ∧
    ((Sys.init { workers := 3, interval := 30 * Second } types).run lostUpdateSchedule).crashed
      = false ∧
    ((Sys.init { workers := 3, interval := 30 * Second } types).run lostUpdateSchedule).iterations
      = 1 ∧
    ((Sys.init { workers := 3, interval := 30 * Second } types).run inTurnSchedule).received
      = [(0, makeJob "pods"), (1, makeJob "nodes"), (2, makeJob "pods")] ∧
    ((Sys.init { workers := 3, interval := 30 * Second } types).run inTurnSchedule).workers
      = [{ workerID := 0, pc := [] }, { workerID := 1, pc := [] },
         { workerID := 2, pc := [] }] ∧
    ((Sys.init { workers := 3, interval := 30 * Second } types).run inTurnSchedule).iterations
      = 2 := by
  refine ⟨by decide, by decide, by decide, by decide, by decide, by decide, by decide,
    by decide, by decide, by decide⟩

/-- C4: for a job whose type is neither "nodes" nor "pods", the branch of
`startWorker` consists of the log line and the sleep of `job.Sleep` only: no
call into `exporter`, `iterations` and every inflight gauge keep their values,
and the worker that received the job is back in the `select` after it. -/
theorem startWorker_unknown_type (workerID : Int) (job : Job) (s : Sys)
    (hn : job.type ≠ "nodes") (hp : job.type ≠ "pods") :
    startWorkerBody workerID job = [WorkerOp.logSleeping job.Sleep, WorkerOp.sleep job.Sleep] ∧
    WorkerOp.recordNodeMetrics ∉ startWorkerBody workerID job ∧
    WorkerOp.recordPodMetrics ∉ startWorkerBody workerID job ∧
    (startWorkerIteration workerID job s).trace
      = s.trace ++ [Event.logSleeping job.Sleep, Event.workerSleep job.Sleep] ∧
    (startWorkerIteration workerID job s).iterations = s.iterations ∧
    (startWorkerIteration workerID job s).gauge = s.gauge ∧
    (∀ (k : Nat) (rest : List Job), s.crashed = false →
      s.workers[k]? = some { workerID := workerID, pc := [] } → s.queue = job :: rest →
      (s.run (List.replicate 3 (Goroutine.worker k))).workers[k]?
          = some { workerID := workerID, pc := [] } ∧
      (s.run (List.replicate 3 (Goroutine.worker k))).queue = rest ∧
      (s.run (List.replicate 3 (Goroutine.worker k))).trace
          = s.trace ++ [Event.logSleeping job.Sleep, Event.workerSleep job.Sleep] ∧
      (s.run (List.replicate 3 (Goroutine.worker k))).iterations = s.iterations ∧
      (s.run (List.replicate 3 (Goroutine.worker k))).gauge = s.gauge) := by
  have hbody : startWorkerBody workerID job
      = [WorkerOp.logSleeping job.Sleep, WorkerOp.sleep job.Sleep] := by
    simp [startWorkerBody, hn, hp]
  refine ⟨hbody, ?_, ?_, ?_, ?_, ?_, ?_⟩
  · simp [hbody]
  · simp [hbody]
  · simp [startWorkerIteration, hbody, WorkerOp.run, WorkerOp.residual, WorkerOp.exec]
  · simp [startWorkerIteration, hbody, WorkerOp.run, WorkerOp.residual, WorkerOp.exec]
  · simp [startWorkerIteration, hbody, WorkerOp.run, WorkerOp.residual, WorkerOp.exec]
  · intro k rest hc hw hq
    have hlt : k < s.workers.length := (List.getElem?_eq_some_iff.mp hw).1
    simp [Sys.run, Sys.next, Sys.step, Sys.startWorkerStep, hc, hw, hq, hbody, WorkerOp.exec,
      WorkerOp.residual, hlt]

/-- Instance of C4: worker 0 on a job of type "Pods" (capital P), from the
initial state. -/
theorem startWorker_unknown_type_witness :
    (startWorkerIteration 0 { type := "Pods", Sleep := 30 * Second }
        (Sys.init defaultFlags types)).trace
      = (Sys.init defaultFlags types).trace
        ++ [Event.logSleeping (30 * Second), Event.workerSleep (30 * Second)] :=
  (startWorker_unknown_type 0 { type := "Pods", Sleep := 30 * Second }
    (Sys.init defaultFlags types) (by decide) (by decide)).2.2.2.1

/-- The gauge after the schedule `drainedSchedule K`: `K` passes are complete
and "pods" has been incremented `K` times. -/
theorem drained_gauge (interval : Duration) (K : Nat) :
    ((Sys.init { workers := 1, interval := interval } types).run
        (drainedSchedule K)).producer = createJobsPass types ∧
    ((Sys.init { workers := 1, interval := interval } types).run
        (drainedSchedule K)).cycles = K ∧
    ((Sys.init { workers := 1, interval := interval } types).run
        (drainedSchedule K)).gauge "pods" = float64IncN K 0 ∧
    ((Sys.init { workers := 1, interval := interval } types).run
        (drainedSchedule K)).gauge "nodes" = 0 := by
  obtain ⟨_, _, hp, _, hcy, _⟩ := drainedAt_run interval K
  obtain ⟨n, hn, _, hgauge⟩ := producer_at_boundary _ _ _ _ _
    (producerInv_run (Sys.init { workers := 1, interval := interval } types) rfl
      (drainedSchedule K)) hp
  have hn2 : n = K := by
    rw [hcy] at hn
    have h0 : (Sys.init { workers := 1, interval := interval } types).cycles = 0 := rfl
    omega
  subst hn2
  have hpods : (evenEntries types 0).count "pods" = 1 := by decide
  have hnodes : (evenEntries types 0).count "nodes" = 0 := by decide
  have htys : (Sys.init { workers := 1, interval := interval } types).types = types := rfl
  have hg0 : ∀ l, (Sys.init { workers := 1, interval := interval } types).gauge l = 0 :=
    fun _ => rfl
  refine ⟨hp, hcy, ?_, ?_⟩
  · rw [hgauge, htys, hpods, hg0]
    simp
  · rw [hgauge, htys, hnodes, hg0]
    simp [float64IncN_zero]

/-- C5, counterexample: a gauge at `2^53` is not incremented by a pass, and
from all-zero gauges after `2^53 + 1` passes the gauge of "pods" is `2^53`. -/
theorem inflight_gauge_sticks :
    (({ Sys.init defaultFlags types with gauge := fun _ => 9007199254740992 } : Sys).run
        (List.replicate 4 Goroutine.producer)).producer = createJobsPass types ∧
    (({ Sys.init defaultFlags types with gauge := fun _ => 9007199254740992 } : Sys).run
        (List.replicate 4 Goroutine.producer)).cycles = 1 ∧
    (({ Sys.init defaultFlags types with gauge := fun _ => 9007199254740992 } : Sys).run
        (List.replicate 4 Goroutine.producer)).gauge "pods" = 9007199254740992 ∧
    ((Sys.init { workers := 1, interval := 30 * Second } types).run
        (drainedSchedule 9007199254740993)).cycles = 9007199254740993 ∧
    ((Sys.init { workers := 1, interval := 30 * Second } types).run
        (drainedSchedule 9007199254740993)).gauge "pods" = 9007199254740992 := by
  refine ⟨by decide, by decide, by decide, ?_, ?_⟩
  · exact (drained_gauge (30 * Second) 9007199254740993).2.1
  · rw [(drained_gauge (30 * Second) 9007199254740993).2.2.1]
    decide

/-- C5, amended: the labels that a pass increments are the registry entries of
even index, one increment each. For a registry of distinct names, between two
starts of a pass the gauge of an even-index entry, when it was between 0 and
`2^53`, grows by the number of passes completed in between, up to `2^53`
where it stays, and the gauge of an odd-index entry keeps its value; from the
initial state, after `K` passes, they are `min K 2^53` and `0`, so `K` and `0`
for `K <= 2^53`, and for the built-in registry pods is `K` and nodes is `0`.
Every `K` is attained: with one worker that drains each pass, `K` passes
complete. From the initial state every gauge value stays between 0 and
`2^53`. -/
theorem inflight_gauge_parity :
    (∀ tys : List String,
      incsOf (createJobsPass tys)
        = ((tys.enum).filter (fun p => p.1 % 2 = 0)).map Prod.snd) ∧
    (∀ tys : List String, tys.Nodup → ∀ (i : Nat) (h : i < tys.length),
      (incsOf (createJobsPass tys)).count tys[i] = if i % 2 = 0 then 1 else 0) ∧
    (∀ (s : Sys) (gs : List Goroutine), s.types.Nodup →
      s.producer = createJobsPass s.types →
      (s.run gs).producer = createJobsPass s.types →
      ∀ (i : Nat) (h : i < s.types.length),
        0 ≤ s.gauge s.types[i] → s.gauge s.types[i] ≤ float64Exact →
        (s.run gs).gauge s.types[i]
          = if i % 2 = 0 then
              min (s.gauge s.types[i] + (((s.run gs).cycles : Int) - (s.cycles : Int)))
                float64Exact
            else s.gauge s.types[i]) ∧
    (∀ (flags : Flags) (tys : List String) (gs : List Goroutine), tys.Nodup →
      ((Sys.init flags tys).run gs).producer = createJobsPass tys →
      ∀ (i : Nat) (h : i < tys.length),
        ((Sys.init flags tys).run gs).gauge tys[i]
          = if i % 2 = 0 then min (((Sys.init flags tys).run gs).cycles : Int) float64Exact
            else 0) ∧
    (∀ (flags : Flags) (tys : List String) (gs : List Goroutine), tys.Nodup →
      ((Sys.init flags tys).run gs).producer = createJobsPass tys →
      (((Sys.init flags tys).run gs).cycles : Int) ≤ float64Exact →
      ∀ (i : Nat) (h : i < tys.length),
        ((Sys.init flags tys).run gs).gauge tys[i]
          = if i % 2 = 0 then (((Sys.init flags tys).run gs).cycles : Int) else 0) ∧
    (∀ (flags : Flags) (gs : List Goroutine),
      ((Sys.init flags types).run gs).producer = createJobsPass types →
      (((Sys.init flags types).run gs).cycles : Int) ≤ float64Exact →
      ((Sys.init flags types).run gs).gauge "pods" = (((Sys.init flags types).run gs).cycles : Int)
        ∧ ((Sys.init flags types).run gs).gauge "nodes" = 0) ∧
    (∀ (interval : Duration) (K : Nat), (K : Int) ≤ float64Exact →
      ((Sys.init { workers := 1, interval := interval } types).run
          (drainedSchedule K)).producer = createJobsPass types ∧
      ((Sys.init { workers := 1, interval := interval } types).run
          (drainedSchedule K)).cycles = K ∧
      ((Sys.init { workers := 1, interval := interval } types).run
          (drainedSchedule K)).gauge "pods" = (K : Int) ∧
      ((Sys.init { workers := 1, interval := interval } types).run
          (drainedSchedule K)).gauge "nodes" = 0) ∧
    (∀ (flags : Flags) (tys : List String) (gs : List Goroutine) (l : String),
      0 ≤ ((Sys.init flags tys).run gs).gauge l ∧
      ((Sys.init flags tys).run gs).gauge l ≤ float64Exact) ∧
    float64Exact = 2 ^ 53 := by
  have hincs : ∀ tys : List String, incsOf (createJobsPass tys) = evenEntries tys 0 := by
    intro tys
    simp [createJobsPass, incsOf_append, incsOf_createJobsLoop, incsOf]
  have hrel : ∀ (s : Sys) (gs : List Goroutine), s.types.Nodup →
      s.producer = createJobsPass s.types →
      (s.run gs).producer = createJobsPass s.types →
      ∀ (i : Nat) (h : i < s.types.length),
        0 ≤ s.gauge s.types[i] → s.gauge s.types[i] ≤ float64Exact →
        (s.run gs).gauge s.types[i]
          = if i % 2 = 0 then
              min (s.gauge s.types[i] + (((s.run gs).cycles : Int) - (s.cycles : Int)))
                float64Exact
            else s.gauge s.types[i] := by
    intro s gs hnd hstart hend i h h0 hcap
    obtain ⟨n, hn, _, hgauge⟩ :=
      producer_at_boundary _ _ _ _ _ (producerInv_run s hstart gs) hend
    rw [hgauge, count_evenEntries_nodup s.types hnd 0 i h, hn]
    by_cases hi : i % 2 = 0
    · simp only [Nat.zero_add, hi, if_true, Nat.mul_one]
      unfold float64IncN
      push_cast
      rw [float64Exact_eq] at *
      omega
    · simp only [Nat.zero_add, hi, if_false, Nat.mul_zero]
      exact float64IncN_zero _
  have hinit : ∀ (flags : Flags) (tys : List String) (gs : List Goroutine), tys.Nodup →
      ((Sys.init flags tys).run gs).producer = createJobsPass tys →
      ∀ (i : Nat) (h : i < tys.length),
        ((Sys.init flags tys).run gs).gauge tys[i]
          = if i % 2 = 0 then min (((Sys.init flags tys).run gs).cycles : Int) float64Exact
            else 0 := by
    intro flags tys gs hnd hend i h
    have hcap : (0 : Int) ≤ float64Exact := by rw [float64Exact_eq]; omega
    have := hrel (Sys.init flags tys) gs hnd rfl hend i h (le_refl _) hcap
    simpa [Sys.init] using this
  have hbelow : ∀ (flags : Flags) (tys : List String) (gs : List Goroutine), tys.Nodup →
      ((Sys.init flags tys).run gs).producer = createJobsPass tys →
      (((Sys.init flags tys).run gs).cycles : Int) ≤ float64Exact →
      ∀ (i : Nat) (h : i < tys.length),
        ((Sys.init flags tys).run gs).gauge tys[i]
          = if i % 2 = 0 then (((Sys.init flags tys).run gs).cycles : Int) else 0 := by
    intro flags tys gs hnd hend hK i h
    rw [hinit flags tys gs hnd hend i h, min_eq_left hK]
  have hbuiltin : ∀ (flags : Flags) (gs : List Goroutine),
      ((Sys.init flags types).run gs).producer = createJobsPass types →
      (((Sys.init flags types).run gs).cycles : Int) ≤ float64Exact →
      ((Sys.init flags types).run gs).gauge "pods" = (((Sys.init flags types).run gs).cycles : Int)
        ∧ ((Sys.init flags types).run gs).gauge "nodes" = 0 := by
    intro flags gs hend hK
    have hnd : types.Nodup := by decide
    have h0 := hbelow flags types gs hnd hend hK 0 (by decide)
    have h1 := hbelow flags types gs hnd hend hK 1 (by decide)
    exact ⟨by simpa [types] using h0, by simpa [types] using h1⟩
  refine ⟨?_, ?_, hrel, hinit, hbelow, hbuiltin, ?_, gauge_range, rfl⟩
  · intro tys
    rw [hincs, evenEntries_eq_enumFrom, List.enum]
  · intro tys hnd i h
    rw [hincs]
    simpa using count_evenEntries_nodup tys hnd 0 i h
  · intro interval K hK
    obtain ⟨hp, hcy, hpods, hnodes⟩ := drained_gauge interval K
    refine ⟨hp, hcy, ?_, hnodes⟩
    rw [hpods, float64IncN_below K 0 (by simpa using hK)]
    simp

/-- Instance of C5, amended: the registry a, b, c has one increment of "c" per
pass; with the built-in registry, after two passes run by the producer alone
from the initial state, pods is 2 and nodes is 0; under the draining schedule
of three passes, pods is 3. -/
theorem inflight_gauge_parity_witness :
    ((incsOf (createJobsPass ["a", "b", "c"])).count "c" = if 2 % 2 = 0 then 1 else 0) ∧
    ((incsOf (createJobsPass ["a", "b", "c"])).count "b" = if 1 % 2 = 0 then 1 else 0) ∧
    ((Sys.init defaultFlags types).run (List.replicate 8 Goroutine.producer)).cycles = 2 ∧
    (((Sys.init defaultFlags types).run (List.replicate 8 Goroutine.producer)).gauge "pods"
        = (((Sys.init defaultFlags types).run (List.replicate 8 Goroutine.producer)).cycles : Int)
      ∧ ((Sys.init defaultFlags types).run (List.replicate 8 Goroutine.producer)).gauge "nodes"
        = 0) ∧
    ((Sys.init { workers := 1, interval := 30 * Second } types).run
        (drainedSchedule 3)).gauge "pods" = ((3 : Nat) : Int) :=
  ⟨inflight_gauge_parity.2.1 ["a", "b", "c"] (by decide) 2 (by decide),
    inflight_gauge_parity.2.1 ["a", "b", "c"] (by decide) 1 (by decide),
    by decide,
    inflight_gauge_parity.2.2.2.2.2.1 defaultFlags (List.replicate 8 Goroutine.producer)
      (by decide) (by decide),
    (inflight_gauge_parity.2.2.2.2.2.2.1 (30 * Second) 3 (by decide)).2.2.1⟩

/-- C6, counterexample: with `workers = 2^31` the `int32` counter of the
`WaitGroup` becomes negative in `wait.Add`, which panics: the process ends
before any worker is started. -/
theorem startJobProcessor_panics :
    (1 : Int) ≤ 2147483648 ∧
    wrapInt32 2147483648 = -2147483648 ∧
    ((Sys.init { workers := 2147483648, interval := 30 * Second } types).run
        [Goroutine.processor]).crashed = true ∧
    ((Sys.init { workers := 2147483648, interval := 30 * Second } types).run
        [Goroutine.processor]).workers = [] ∧
    ((Sys.init { workers := 2147483648, interval := 30 * Second } types).run
        (List.replicate 5 Goroutine.processor)).workers = [] := by
  refine ⟨by decide, by decide, by decide, by decide, by decide⟩

/-- C6, amended: with `workers = N >= 1` such that the `int32` counter that
`wait.Add(N)` sets is positive, as it is for every `N` from 1 to `2^31 - 1`,
under every schedule the process does not panic, the workers started so far
have the ids `0, 1, ..., k - 1` for some `k <= N`, in this order, and
`startJobProcessor` has not returned: the `WaitGroup` counter stays at its
positive value because `startWorker` has no exit. Once `startJobProcessor`
has taken `N + 2` steps it waits in `wait.Wait()` with exactly `N` workers
started, of ids `0, ..., N - 1`. Every started worker receives from the one
channel. -/
theorem startJobProcessor_starts_workers (flags : Flags) (tys : List String)
    (hN : 1 ≤ flags.workers) (h32 : 0 < wrapInt32 flags.workers) :
    (flags.workers ≤ 2147483647 → wrapInt32 flags.workers = flags.workers) ∧
    (∀ gs : List Goroutine,
      ((Sys.init flags tys).run gs).crashed = false ∧
      ((Sys.init flags tys).run gs).processor ≠ ProcessorPC.returned ∧
      (∃ k, k ≤ flags.workers.toNat ∧ ((Sys.init flags tys).run gs).workerIDs = idsBelow k) ∧
      (((Sys.init flags tys).run gs).processor ≠ ProcessorPC.entry →
        ((Sys.init flags tys).run gs).wg = wrapInt32 flags.workers) ∧
      (((Sys.init flags tys).run gs).processor = ProcessorPC.waiting →
        ((Sys.init flags tys).run gs).workerIDs = idsBelow flags.workers.toNat ∧
        ((Sys.init flags tys).run gs).workers.length = flags.workers.toNat)) ∧
    (∀ gs : List Goroutine, flags.workers.toNat + 2 ≤ gs.count Goroutine.processor →
      ((Sys.init flags tys).run gs).processor = ProcessorPC.waiting ∧
      ((Sys.init flags tys).run gs).workerIDs = idsBelow flags.workers.toNat ∧
      ((Sys.init flags tys).run gs).workers.length = flags.workers.toNat) ∧
    (∀ (s : Sys) (k : Nat) (w : Worker) (job : Job) (rest : List Job),
      s.crashed = false → s.workers[k]? = some w → w.pc = [] → s.queue = job :: rest →
      (s.next (Goroutine.worker k)).queue = rest ∧
      (s.next (Goroutine.worker k)).received = s.received ++ [(w.workerID, job)]) := by
  have hsafe : ∀ gs : List Goroutine,
      ((Sys.init flags tys).run gs).crashed = false ∧
      ((Sys.init flags tys).run gs).processor ≠ ProcessorPC.returned ∧
      (∃ k, k ≤ flags.workers.toNat ∧ ((Sys.init flags tys).run gs).workerIDs = idsBelow k) ∧
      (((Sys.init flags tys).run gs).processor ≠ ProcessorPC.entry →
        ((Sys.init flags tys).run gs).wg = wrapInt32 flags.workers) ∧
      (((Sys.init flags tys).run gs).processor = ProcessorPC.waiting →
        ((Sys.init flags tys).run gs).workerIDs = idsBelow flags.workers.toNat ∧
        ((Sys.init flags tys).run gs).workers.length = flags.workers.toNat) := by
    intro gs
    have hinv := processorInv_run flags tys gs
    have hfl := flags_run flags tys gs
    unfold ProcessorInv at hinv
    rw [hfl] at hinv
    cases hp : ((Sys.init flags tys).run gs).processor with
    | entry =>
      rw [hp] at hinv
      obtain ⟨hids, _, hcr⟩ := hinv
      refine ⟨?_, by simp, ⟨0, by omega, by simpa [idsBelow] using hids⟩, by simp, by simp⟩
      cases hc : ((Sys.init flags tys).run gs).crashed with
      | false => rfl
      | true => exact absurd (hcr hc) (by omega)
    | spawning i =>
      rw [hp] at hinv
      obtain ⟨hc, h0, hle, hwg, _, hids⟩ := hinv
      exact ⟨hc, by simp, ⟨i.toNat, by omega, hids⟩, fun _ => hwg, by simp⟩
    | waiting =>
      rw [hp] at hinv
      obtain ⟨hc, hwg, _, hids⟩ := hinv
      refine ⟨hc, by simp, ⟨flags.workers.toNat, le_refl _, hids⟩, fun _ => hwg,
        fun _ => ⟨hids, ?_⟩⟩
      have hlen := congrArg List.length hids
      simpa [Sys.workerIDs, idsBelow] using hlen
    | returned =>
      rw [hp] at hinv
      obtain ⟨_, hzero, _, _⟩ := hinv
      omega
  refine ⟨fun hle => wrapInt32_of_range _ (by omega) hle, hsafe, ?_, ?_⟩
  · intro gs hcount
    have hsteps := stepsToWait_run gs (Sys.init flags tys) (processorInv_init flags tys)
      (by show 0 ≤ wrapInt32 flags.workers; omega)
    have hfl : (Sys.init flags tys).flags = flags := rfl
    have hpc : (Sys.init flags tys).processor = ProcessorPC.entry := rfl
    rw [hfl, hpc] at hsteps
    simp only [stepsToWait] at hsteps
    obtain ⟨_, hret, _, _, hwait⟩ := hsafe gs
    have hw : ((Sys.init flags tys).run gs).processor = ProcessorPC.waiting := by
      cases hp : ((Sys.init flags tys).run gs).processor with
      | entry => rw [hp] at hsteps; simp only [stepsToWait] at hsteps; omega
      | spawning i => rw [hp] at hsteps; simp only [stepsToWait] at hsteps; omega
      | waiting => rfl
      | returned => exact absurd hp hret
    exact ⟨hw, hwait hw⟩
  · intro s k w job rest hc hw hpc hq
    obtain ⟨wid, pc⟩ := w
    simp only at hpc
    subst hpc
    simp [Sys.next, Sys.step, Sys.startWorkerStep, hc, hw, hq]

/-- Instance of C6, amended: the default `workers = 2`; after four steps of
`startJobProcessor` the workers 0 and 1 are started and it waits. The largest
count of the range, `2^31 - 1`, also sets a positive counter. -/
theorem startJobProcessor_starts_workers_witness :
    (((Sys.init defaultFlags types).run (List.replicate 4 Goroutine.processor)).processor
        = ProcessorPC.waiting ∧
      ((Sys.init defaultFlags types).run (List.replicate 4 Goroutine.processor)).workerIDs
        = idsBelow defaultFlags.workers.toNat ∧
      ((Sys.init defaultFlags types).run (List.replicate 4 Goroutine.processor)).workers.length
        = defaultFlags.workers.toNat) ∧
    ((2147483647 : Int) ≤ 2147483647 → wrapInt32 2147483647 = 2147483647) :=
  ⟨(startJobProcessor_starts_workers defaultFlags types (by decide) (by decide)).2.2.1
      (List.replicate 4 Goroutine.processor) (by decide),
    (startJobProcessor_starts_workers { workers := 2147483647, interval := 30 * Second } types
      (by decide) (by decide)).1⟩
/-- C7: no step of any goroutine lowers an inflight gauge value; a step of the
producer leaves a value as it is or adds 1; steps of the workers and of
`startJobProcessor`, and a whole worker iteration, leave every value as it is.
So along every schedule each value is non-decreasing, and from the initial
state it is never negative. -/
theorem inflight_gauge_monotone :
    (∀ (s : Sys) (g : Goroutine) (l : String), s.gauge l ≤ (s.next g).gauge l) ∧
    (∀ (s : Sys) (l : String),
      (s.next Goroutine.producer).gauge l = s.gauge l ∨
      (s.next Goroutine.producer).gauge l = s.gauge l + 1) ∧
    (∀ (s : Sys) (k : Nat), (s.next (Goroutine.worker k)).gauge = s.gauge) ∧
    (∀ s : Sys, (s.next Goroutine.processor).gauge = s.gauge) ∧
    (∀ (workerID : Int) (job : Job) (s : Sys),
      (startWorkerIteration workerID job s).gauge = s.gauge) ∧
    (∀ (s : Sys) (gs : List Goroutine) (l : String), s.gauge l ≤ (s.run gs).gauge l) ∧
    (∀ (flags : Flags) (tys : List String) (gs : List Goroutine) (l : String),
      0 ≤ ((Sys.init flags tys).run gs).gauge l) :=
  ⟨Sys.next_gauge_le, Sys.next_producer_gauge,
    fun s k => (Sys.next_worker_frame s k).2.2.1,
    fun s => (Sys.next_processor_frame s).2.2.1,
    startWorkerIteration_gauge, Sys.run_gauge_le,
    fun flags tys gs l => Sys.run_gauge_le (Sys.init flags tys) gs l⟩

/-- C8: `inflightCounterVec` is not among the collectors that `main` registers,
so `/metrics` does not serve it, although the producer writes it: after the
first pass its "pods" child is 1. The four gauges of `exporter` are
registered. -/
theorem inflight_gauge_not_registered :
    Collector.inflightCounterVec ∉ metricsEndpointCollectors ∧
    metricsEndpointCollectors
      = [Collector.PodMetricCPU, Collector.PodMetricMemory, Collector.NodeMetricCPU,
          Collector.NodeMetricMemory] ∧
    ((Sys.init defaultFlags types).run (List.replicate 4 Goroutine.producer)).gauge "pods"
      = 1 := by
  refine ⟨by decide, rfl, by decide⟩

/-- C9: the job channel has capacity 100 and, under every schedule, never
holds more than 100 jobs, and every job sent is either received or still
buffered. A send of the producer on the full channel does not complete; the
producer stays at that send through every scheduler step; the buffered jobs
stay the same unless the step is a receive of a worker, which removes the
oldest job, and then the send completes and appends the job. The producer is
never more than 100 sends ahead of the receives. Running alone
with the built-in registry, the producer completes exactly 100 sends, through
50 full passes, and from its 201st step on it is blocked at the next send. -/
theorem channel_back_pressure :
    channelCapacity = 100 ∧
    (∀ (flags : Flags) (tys : List String) (gs : List Goroutine),
      ((Sys.init flags tys).run gs).queue.length ≤ 100 ∧
      ((Sys.init flags tys).run gs).sent
        = ((Sys.init flags tys).run gs).received.map Prod.snd
          ++ ((Sys.init flags tys).run gs).queue ∧
      ((Sys.init flags tys).run gs).sent.length
        ≤ ((Sys.init flags tys).run gs).received.length + 100) ∧
    (∀ (s : Sys) (job : Job) (rest : List ProducerOp),
      s.producer = ProducerOp.send job :: rest → s.queue.length = 100 →
      s.step Goroutine.producer = none ∧ s.next Goroutine.producer = s ∧
      ∀ g : Goroutine,
        (s.next g).producer = ProducerOp.send job :: rest ∧
        ((s.next g).queue = s.queue ∨
          ∃ k w first, g = Goroutine.worker k ∧ s.workers[k]? = some w ∧ w.pc = [] ∧
            s.queue = first :: (s.next g).queue ∧
            (s.next g).received = s.received ++ [(w.workerID, first)] ∧
            ((s.next g).step Goroutine.producer).isSome = true ∧
            ((s.next g).next Goroutine.producer).queue = (s.next g).queue ++ [job] ∧
            ((s.next g).next Goroutine.producer).sent = s.sent ++ [job])) ∧
    (∀ (flags : Flags) (n : Nat), 201 ≤ n →
      ((Sys.init flags types).run (List.replicate n Goroutine.producer)).sent.length = 100 ∧
      ((Sys.init flags types).run (List.replicate n Goroutine.producer)).queue.length = 100 ∧
      ((Sys.init flags types).run (List.replicate n Goroutine.producer)).cycles = 50 ∧
      ((Sys.init flags types).run (List.replicate n Goroutine.producer)).received = [] ∧
      ((Sys.init flags types).run (List.replicate n Goroutine.producer)).producer
        = [ProducerOp.send (makeJob "pods"), ProducerOp.send (makeJob "nodes"),
            ProducerOp.sleep parseDuration30s] ∧
      ((Sys.init flags types).run (List.replicate n Goroutine.producer)).step
        Goroutine.producer = none) := by
  refine ⟨rfl, ?_, ?_, ?_⟩
  · intro flags tys gs
    obtain ⟨h1, h2⟩ := queueInv_run flags tys gs
    have h3 := congrArg List.length h1
    rw [List.length_append, List.length_map] at h3
    unfold channelCapacity at h2
    exact ⟨h2, h1, by omega⟩
  · intro s job rest hp hfull
    have hcap : channelCapacity ≤ s.queue.length := by rw [hfull]; exact le_refl _
    refine ⟨(Sys.send_blocked s job rest hp hcap).1, (Sys.send_blocked s job rest hp hcap).2, ?_⟩
    intro g
    have hstay := Sys.send_stays_blocked s job rest hp hcap g
    refine ⟨hstay, ?_⟩
    rcases Sys.next_queue_cases s g with ⟨hq, _, _⟩ | ⟨_, _, _, _, hroom, _⟩ |
      ⟨k, w, first, hg, hw, hpc, hq, hr, hs⟩
    · exact Or.inl hq
    · exact absurd hroom (by omega)
    · right
      have hcr : (s.next g).crashed = false := by
        rw [hg, (Sys.next_worker_frame s k).2.2.2.2.2.2.2.2.1]
        cases hc : s.crashed with
        | false => rfl
        | true =>
          have hsame : s.next g = s := by simp [Sys.next, Sys.step, hc]
          rw [hsame] at hq
          have := congrArg List.length hq
          simp at this
      have hroom : (s.next g).queue.length < channelCapacity := by
        have := congrArg List.length hq
        simp only [List.length_cons] at this
        rw [hfull] at this
        unfold channelCapacity
        omega
      obtain ⟨h1, h2, h3⟩ := Sys.send_completes (s.next g) job rest hcr hstay hroom
      refine ⟨k, w, first, hg, hw, hpc, hq, hr, h1, h2, ?_⟩
      rw [h3, hs]
  · intro flags n hn
    rw [run_alone_ge_201 flags n hn]
    have hfull := aloneFull_at_201 flags
    obtain ⟨hc, hp, hq, hs, hcy, hr⟩ := hfull
    exact ⟨hs, hq, hcy, hr, hp, (aloneFull_blocked _ (aloneFull_at_201 flags)).1⟩

/-- Instance of C9: the state that the producer reaches alone in 201 steps is
blocked at a send on the full channel, and stays so under a step of
`startJobProcessor`. -/
theorem channel_back_pressure_witness :
    ((Sys.init defaultFlags types).run (List.replicate 201 Goroutine.producer)).step
        Goroutine.producer = none ∧
    (((Sys.init defaultFlags types).run (List.replicate 201 Goroutine.producer)).next
        Goroutine.processor).producer
      = [ProducerOp.send (makeJob "pods"), ProducerOp.send (makeJob "nodes"),
          ProducerOp.sleep parseDuration30s] :=
  ⟨(channel_back_pressure.2.2.1
      ((Sys.init defaultFlags types).run (List.replicate 201 Goroutine.producer))
      (makeJob "pods")
      [ProducerOp.send (makeJob "nodes"), ProducerOp.sleep parseDuration30s]
      (channel_back_pressure.2.2.2 defaultFlags 201 (le_refl _)).2.2.2.2.1
      (channel_back_pressure.2.2.2 defaultFlags 201 (le_refl _)).2.1).1,
    ((channel_back_pressure.2.2.1
      ((Sys.init defaultFlags types).run (List.replicate 201 Goroutine.producer))
      (makeJob "pods")
      [ProducerOp.send (makeJob "nodes"), ProducerOp.sleep parseDuration30s]
      (channel_back_pressure.2.2.2 defaultFlags 201 (le_refl _)).2.2.2.2.1
      (channel_back_pressure.2.2.2 defaultFlags 201 (le_refl _)).2.1).2.2
      Goroutine.processor).1⟩

/-- C10: a send puts the job behind the buffered ones and a receive takes the
oldest buffered job; the histories of sends and of receives only grow at the
end. Under every schedule the jobs received, in the order of their receives,
followed by the buffered jobs, are the jobs sent, in the order of their
sends: the job received at position `a` is the job sent at position `a`, so of
two jobs the one sent first is received first. The `k`-th job received is the
job of registry entry `k mod len(types)`; with the built-in registry the
"pods" job of a pass is received right before the "nodes" job of that pass. -/
theorem channel_fifo :
    (∀ (s : Sys) (g : Goroutine),
      ((s.next g).queue = s.queue ∧ (s.next g).received = s.received ∧
          (s.next g).sent = s.sent) ∨
      (∃ job rest, g = Goroutine.producer ∧ s.producer = ProducerOp.send job :: rest ∧
          s.queue.length < channelCapacity ∧ (s.next g).queue = s.queue ++ [job] ∧
          (s.next g).sent = s.sent ++ [job] ∧ (s.next g).received = s.received) ∨
      (∃ k w job, g = Goroutine.worker k ∧ s.workers[k]? = some w ∧ w.pc = [] ∧
          s.queue = job :: (s.next g).queue ∧
          (s.next g).received = s.received ++ [(w.workerID, job)] ∧
          (s.next g).sent = s.sent)) ∧
    (∀ (s : Sys) (gs : List Goroutine),
      (∃ more, (s.run gs).sent = s.sent ++ more) ∧
      (∃ more, (s.run gs).received = s.received ++ more)) ∧
    (∀ (flags : Flags) (tys : List String) (gs : List Goroutine),
      ((Sys.init flags tys).run gs).sent
        = ((Sys.init flags tys).run gs).received.map Prod.snd
          ++ ((Sys.init flags tys).run gs).queue) ∧
    (∀ (flags : Flags) (tys : List String) (gs : List Goroutine) (a b : Nat),
      a < b → b < ((Sys.init flags tys).run gs).received.length →
      a < ((Sys.init flags tys).run gs).received.length ∧
      (((Sys.init flags tys).run gs).received[a]?).map Prod.snd
        = ((Sys.init flags tys).run gs).sent[a]? ∧
      (((Sys.init flags tys).run gs).received[b]?).map Prod.snd
        = ((Sys.init flags tys).run gs).sent[b]?) ∧
    (∀ (flags : Flags) (tys : List String) (gs : List Goroutine) (k : Nat),
      k < ((Sys.init flags tys).run gs).received.length →
      (((Sys.init flags tys).run gs).received[k]?).map Prod.snd
        = (tys.map makeJob)[k % tys.length]?) ∧
    (∀ (flags : Flags) (gs : List Goroutine) (c : Nat),
      2 * c + 1 < ((Sys.init flags types).run gs).received.length →
      (((Sys.init flags types).run gs).received[2 * c]?).map Prod.snd = some (makeJob "pods") ∧
      (((Sys.init flags types).run gs).received[2 * c + 1]?).map Prod.snd
        = some (makeJob "nodes")) := by
  have hpos : ∀ (flags : Flags) (tys : List String) (gs : List Goroutine) (k : Nat),
      k < ((Sys.init flags tys).run gs).received.length →
      (((Sys.init flags tys).run gs).received[k]?).map Prod.snd
        = ((Sys.init flags tys).run gs).sent[k]? := by
    intro flags tys gs k hk
    have hinv := (queueInv_run flags tys gs).1
    have hk2 : k < (((Sys.init flags tys).run gs).received.map Prod.snd).length := by
      simpa using hk
    rw [hinv, List.getElem?_append_left hk2, List.getElem?_map]
  have hreg : ∀ (flags : Flags) (tys : List String) (gs : List Goroutine) (k : Nat),
      k < ((Sys.init flags tys).run gs).received.length →
      (((Sys.init flags tys).run gs).received[k]?).map Prod.snd
        = (tys.map makeJob)[k % tys.length]? := by
    intro flags tys gs k hk
    rw [hpos flags tys gs k hk]
    apply sent_getElem?
    have hinv := (queueInv_run flags tys gs).1
    rw [hinv, List.length_append, List.length_map]
    omega
  refine ⟨Sys.next_queue_cases, Sys.run_histories_grow,
    fun flags tys gs => (queueInv_run flags tys gs).1, ?_, hreg, ?_⟩
  · intro flags tys gs a b hab hb
    have ha : a < ((Sys.init flags tys).run gs).received.length := by omega
    exact ⟨ha, hpos flags tys gs a ha, hpos flags tys gs b hb⟩
  · intro flags gs c hc
    have h0 := hreg flags types gs (2 * c) (by omega)
    have h1 := hreg flags types gs (2 * c + 1) hc
    have hlen : types.length = 2 := rfl
    have e0 : 2 * c % 2 = 0 := by omega
    have e1 : (2 * c + 1) % 2 = 1 := by omega
    rw [hlen, e0] at h0
    rw [hlen, e1] at h1
    exact ⟨by rw [h0]; rfl, by rw [h1]; rfl⟩

/-- Instance of C10: both workers started, one pass produced, worker 0 then
worker 1 receive: the "pods" job is received first. -/
theorem channel_fifo_witness :
    (((Sys.init defaultFlags types).run
        ([Goroutine.processor, Goroutine.processor, Goroutine.processor, Goroutine.producer,
          Goroutine.producer, Goroutine.producer, Goroutine.worker 0,
          Goroutine.worker 1])).received[2 * 0]?).map Prod.snd = some (makeJob "pods") ∧
    (((Sys.init defaultFlags types).run
        ([Goroutine.processor, Goroutine.processor, Goroutine.processor, Goroutine.producer,
          Goroutine.producer, Goroutine.producer, Goroutine.worker 0,
          Goroutine.worker 1])).received[2 * 0 + 1]?).map Prod.snd = some (makeJob "nodes") :=
  channel_fifo.2.2.2.2.2 defaultFlags
    [Goroutine.processor, Goroutine.processor, Goroutine.processor, Goroutine.producer,
      Goroutine.producer, Goroutine.producer, Goroutine.worker 0, Goroutine.worker 1] 0
    (by decide)


end MetricsExporter
